import Mathlib

/-!
Verification of the `MRKS` iterative Kohn–Sham inversion solver
(`n2v/methods/rmks.py`).

The solver is embedded shallowly over `ℚ`:

* grid-valued quantities (numpy 1-d arrays over grid points) are `List ℚ`;
* basis-indexed matrices (numpy 2-d arrays) are `List (List ℚ)`;
* the two-particle density tensor is a rank-4 nested list;
* a quadrature `Block` carries the point coordinates, integration weights,
  local-to-global basis map and the basis values at the block's points —
  exactly the capability contract the solver requires from the external
  quantum-chemistry engine;
* the numerical reciprocal square root `1 / np.sqrt` used by the
  inverse-distance kernel is threaded through as an explicit function
  parameter `invsqrt` (it is library numerics, external to the solver); the
  degeneracy guard that replaces near-coincident distances by `np.inf`
  (whose reciprocal square root is exactly `0`) is embedded explicitly;
* fatal `assert` / `raise` paths are `Option` / `Except` failures;
* external engine capabilities (grid construction, Fock build from a grid
  potential, matrix diagonalization, initial-guess computation) are
  function-valued parameters.

Iteration-level claims are settled on an explicit per-iteration trace
produced by the embedded fixed-point loop.
-/

namespace N2V

/-- Grid-valued quantity: one rational per grid point (numpy 1-d array). -/
abbrev Vec := List ℚ

/-- Basis-indexed matrix (numpy 2-d array). -/
abbrev Mat := List (List ℚ)

/-- Rank-4 tensor (numpy 4-d array), used for the two-particle density. -/
abbrev Ten4 := List (List (List (List ℚ)))

/-- Entry `v[i]` of a 1-d array (out-of-range reads default to `0`;
all embedded accesses are in range). -/
def idx (v : Vec) (i : ℕ) : ℚ := v.getD i 0

/-- Entry `M[i, j]` of a 2-d array. -/
def midx (M : Mat) (i j : ℕ) : ℚ := (M.getD i []).getD j 0

/-- Entry `T[p, q, r, s]` of a 4-d array. -/
def tidx (T : Ten4) (p q r s : ℕ) : ℚ :=
  (((T.getD p []).getD q []).getD r []).getD s 0

/-- Finite sum `Σ_{i < n} f i`, the elementary building block of the
`opt_einsum.contract` tensor contractions. -/
def rsum (n : ℕ) (f : ℕ → ℚ) : ℚ := ((List.range n).map f).sum

/-- Elementwise sum of two grid arrays (numpy `+` on equal-shape arrays). -/
def vadd (x y : Vec) : Vec := List.zipWith (fun a b => a + b) x y

/-- Elementwise difference of two grid arrays. -/
def vsub (x y : Vec) : Vec := List.zipWith (fun a b => a - b) x y

/-- Elementwise matrix sum. -/
def madd (A B : Mat) : Mat := List.zipWith vadd A B

/-- Elementwise matrix difference. -/
def msub (A B : Mat) : Mat := List.zipWith vsub A B

/-- Matrix product `A @ B` (`k` summed over the rows of `B`). -/
def matMul (A B : Mat) : Mat :=
  A.map (fun row => (List.range ((B.getD 0 []).length)).map
    (fun j => rsum B.length (fun k => idx row k * midx B k j)))

/-- Matrix transpose `A.T`. -/
def matTrans (A : Mat) : Mat :=
  (List.range ((A.getD 0 []).length)).map (fun j => A.map (fun r => r.getD j 0))

/-- Column slice `M[:, :n]`. -/
def matTake (M : Mat) (n : ℕ) : Mat := M.map (fun r => r.take n)

/-- Fancy-index submatrix `D[(rows[:, None], cols)]`. -/
def submat (D : Mat) (rows cols : List ℕ) : Mat :=
  rows.map (fun i => cols.map (fun j => midx D i j))

/-- Row slice `C[rows, :]`. -/
def rowsAt (C : Mat) (rows : List ℕ) : Mat := rows.map (fun i => C.getD i [])

/-- The value `np.max` of a grid array (junk `0` on the empty array, where
numpy would raise). -/
def npMax : Vec → ℚ
  | [] => 0
  | x :: xs => xs.foldl max x

/-- Squared Frobenius/L2 norm of a 1-d array: `‖v‖² = Σ v_i²`. -/
def sumSq (v : Vec) : ℚ := (v.map (fun a => a * a)).sum

/-- Squared Frobenius norm of a 2-d array. -/
def sumSqM (M : Mat) : ℚ := (M.map sumSq).sum

/-- Decision `‖v‖ / d < tol` of a normalized error against a tolerance,
expressed on the squared norm `sq = ‖v‖²` so that it is exact rational
arithmetic: for `d > 0` and `sq ≥ 0` it holds iff `0 < tol * d` and
`sq < (tol * d)²`.  `normTolLt_iff_sqrt` below proves this agrees with the
real-valued comparison `Real.sqrt sq / d < tol` computed by
`np.linalg.norm(Δ) / d < tol`. -/
def normTolLt (sq d tol : ℚ) : Bool :=
  decide (0 < tol * d) && decide (sq < (tol * d) ^ 2)

/-- A spatial quadrature block, as exposed by the engine's grid: point
coordinates `x, y, z`, integration weights `w`, the local-to-global
basis-function index map (`functions_local_to_global`), and the
basis-function values (and first derivatives) at the block's points
(`points_func.basis_values()`). -/
structure Block where
  x : Vec
  y : Vec
  z : Vec
  w : Vec
  lpos : List ℕ
  phi : Mat
  phi_x : Mat
  phi_y : Mat
  phi_z : Mat
deriving DecidableEq

/-- Number of points of a block (`l_grid.npoints()`, equal to the length of
the coordinate arrays). -/
def Block.npts (b : Block) : ℕ := b.x.length

/-- An alternate grid description, the `grid_info = (blocks, npoints,
points_func)` triple threaded through every quadrature operation (the basis
evaluator `points_func` is represented by the basis values stored in the
blocks). -/
structure GridInfo where
  blocks : List Block
  npoints : ℕ
deriving DecidableEq

/-- Grid resolution common to all four quadrature operations: with no
`grid_info` the solver's internal DFT grid (`self.Vpot`,
`self.npoints_DFT`) is used, otherwise the supplied blocks and point
count. -/
def resolveGrid (B : List Block) (nDFT : ℕ) : Option GridInfo → List Block × ℕ
  | none => (B, nDFT)
  | some g => (g.blocks, g.npoints)

/-- Total point count of a block list; this is both how `mRKS` computes
`self.npoints_DFT` (summing `get_block(blk).x().shape[0]`) and the value of
the per-block point-count accumulator (`iw` / `w1_old`) after a full pass. -/
def totalPts (bs : List Block) : ℕ := (bs.map Block.npts).sum

/-- Local density `rho = contract('pm,mn,pn->p', l_phi, lD, l_phi)` at point
`p`, with `nl` locally active basis functions. -/
def rhoAt (lD lphi : Mat) (p nl : ℕ) : ℚ :=
  rsum nl fun m => rsum nl fun n => midx lphi p m * midx lD m n * midx lphi p n

/-- Per-point value of `_average_local_orbital_energy`: the
orbital-energy-weighted bilinear form over basis values divided by the local
density (eqs. (4)(6) of the mRKS paper). -/
def avgPoint (D C : Mat) (eig : Vec) (b : Block) (p : ℕ) : ℚ :=
  let lpos := b.lpos
  let lphi := (b.phi.take b.npts).map (fun r => r.take lpos.length)
  let lD := submat D lpos lpos
  let lC := rowsAt C lpos
  let rho := rhoAt lD lphi p lpos.length
  (rsum lpos.length fun m => rsum eig.length fun i => rsum lpos.length fun n =>
      midx lphi p m * midx lC m i * midx lC n i * idx eig i * midx lphi p n) / rho

/-- Shallow embedding of `MRKS._average_local_orbital_energy(D, C, eig,
grid_info)`.  Fills the output array block by block; the final
`assert iw == e_bar.shape[0]` (fatal on a block/point-count mismatch) is the
`none` branch. -/
def average_local_orbital_energy (B : List Block) (nDFT : ℕ) (D C : Mat)
    (eig : Vec) (gi : Option GridInfo) : Option Vec :=
  let r := resolveGrid B nDFT gi
  let e_bar := (r.1.map (fun b => (List.range b.npts).map (avgPoint D C eig b))).flatten
  if e_bar.length = r.2 then some e_bar else none

/-- Per-point value of `_pauli_kinetic_energy_density`: antisymmetrized
orbital-pair gradient contractions, occupation weighted, divided by the
squared local density (this is `taup / n`, not raw `taup`). -/
def pauliPoint (D C : Mat) (occ : Vec) (b : Block) (p : ℕ) : ℚ :=
  let lpos := b.lpos
  let nl := lpos.length
  let lphi := (b.phi.take b.npts).map (fun r => r.take nl)
  let lphix := (b.phi_x.take b.npts).map (fun r => r.take nl)
  let lphiy := (b.phi_y.take b.npts).map (fun r => r.take nl)
  let lphiz := (b.phi_z.take b.npts).map (fun r => r.take nl)
  let lD := submat D lpos lpos
  let lC := rowsAt C lpos
  let rho := rhoAt lD lphi p nl
  -- part_dir[i, j, p] = contract('pm,mi,nj,pn->ijp', l_phi, lC, lC, l_phi_dir)
  let part := fun (dphi : Mat) (i j : ℕ) =>
    rsum nl fun m => rsum nl fun n => midx lphi p m * midx lC m i * midx lC n j * midx dphi p n
  -- part1_dir = (part_dir - part_dir.transpose(1, 0, 2)) ** 2
  let part1 := fun (dphi : Mat) (i j : ℕ) => (part dphi i j - part dphi j i) ^ 2
  let taup := (rsum occ.length fun i => rsum occ.length fun j =>
      (part1 lphix i j + part1 lphiy i j + part1 lphiz i j) * (idx occ i * idx occ j)) * (1 / 2)
  taup / rho ^ 2 * (1 / 2)

/-- Shallow embedding of `MRKS._pauli_kinetic_energy_density(D, C, occ,
grid_info)` (restricted path; the unrestricted `Db/Cb/occb` arguments are
dead code in the restricted solver and are omitted).  `occ` defaults to
`np.ones(C.shape[1])`. -/
def pauli_kinetic_energy_density (B : List Block) (nDFT : ℕ) (D C : Mat)
    (occ? : Option Vec) (gi : Option GridInfo) : Option Vec :=
  let occ := match occ? with
    | some o => o
    | none => List.replicate ((C.getD 0 []).length) 1
  let r := resolveGrid B nDFT gi
  let taup_rho := (r.1.map (fun b => (List.range b.npts).map (pauliPoint D C occ b))).flatten
  if taup_rho.length = r.2 then some taup_rho else none

/-- Per-point value of `_modified_pauli_kinetic_energy_density`:
derivative×derivative contractions only (no antisymmetrization), negated,
divided by the squared local density (no extra halving). -/
def modifiedPauliPoint (D C : Mat) (occ : Vec) (b : Block) (p : ℕ) : ℚ :=
  let lpos := b.lpos
  let nl := lpos.length
  let lphi := (b.phi.take b.npts).map (fun r => r.take nl)
  let lphix := (b.phi_x.take b.npts).map (fun r => r.take nl)
  let lphiy := (b.phi_y.take b.npts).map (fun r => r.take nl)
  let lphiz := (b.phi_z.take b.npts).map (fun r => r.take nl)
  let lD := submat D lpos lpos
  let lC := rowsAt C lpos
  let rho := rhoAt lD lphi p nl
  -- part_dir[i, j, p] = contract('pm,mi,nj,pn->ijp', l_phi_dir, lC, lC, l_phi_dir)
  let part := fun (dphi : Mat) (i j : ℕ) =>
    rsum nl fun m => rsum nl fun n => midx dphi p m * midx lC m i * midx lC n j * midx dphi p n
  -- phi_iphi_j[i, j, p] = contract('pm,mi,nj,pn->ijp', l_phi, lC, lC, l_phi) * (px + py + pz)
  let partPhi := fun (i j : ℕ) =>
    rsum nl fun m => rsum nl fun n => midx lphi p m * midx lC m i * midx lC n j * midx lphi p n
  let taup := -(rsum occ.length fun i => rsum occ.length fun j =>
      partPhi i j * (part lphix i j + part lphiy i j + part lphiz i j) * (idx occ i * idx occ j))
  taup / rho ^ 2

/-- Shallow embedding of `MRKS._modified_pauli_kinetic_energy_density(D, C,
occ, grid_info)`. -/
def modified_pauli_kinetic_energy_density (B : List Block) (nDFT : ℕ) (D C : Mat)
    (occ? : Option Vec) (gi : Option GridInfo) : Option Vec :=
  let occ := match occ? with
    | some o => o
    | none => List.replicate ((C.getD 0 []).length) 1
  let r := resolveGrid B nDFT gi
  let taup_rho := (r.1.map (fun b => (List.range b.npts).map (modifiedPauliPoint D C occ b))).flatten
  if taup_rho.length = r.2 then some taup_rho else none

/-- Input reference wavefunction data as exposed by the engine: the
wavefunction kind name, the raw two-particle density (`get_tpdm("SUM",
True)`), the one-particle densities in both conventions used by the source
(`get_opdm(-1, -1, "SUM", True)` for the hole quadrature, `get_opdm(-1, -1,
"SUM", False)` for the generalized Fock build), the orbital coefficients
`Ca`, the alpha/beta density matrices and the occupied orbital energies
(`epsilon_a_subset("AO", "OCC")`). -/
structure Wfn where
  name : String
  TauRaw : Ten4
  opdmAO : Mat
  opdmMO : Mat
  Ca : Mat
  Da : Mat
  Db : Mat
  epsOcc : Vec
deriving DecidableEq

/-- The mutable `MRKS` solver state: reference-wavefunction data, the
restricted/unrestricted flag, guide-potential components, basis/occupation
sizes, the target densities `nt` and coefficients `ct`, the one-electron
matrices `T`, `V` and the guide potential `va`, the evolving Kohn–Sham state
(`Da`, `Coca`, `Ca`, `eigvecs_a`), the attached DFT grid and the cached
reference hole potential. -/
structure Solver where
  wfn : Wfn
  ref : ℤ
  guide_potential_components : List String
  nalpha : ℕ
  nbf : ℕ
  nt : List Mat
  ct : List Mat
  T : Mat
  V : Mat
  va : Mat
  Da : Mat
  Coca : Mat
  Ca : Mat
  eigvecs_a : Vec
  shift : ℚ
  Vpot : List Block
  npoints_DFT : ℕ
  vxc_hole_WF : Option Vec
deriving DecidableEq

/-- The molecular-orbital transform of the two-particle density,
`contract("pqrs,ip,jq,ur,vs->ijuv", Tau_ijkl, C, C, C, C)` with `nbf` basis
functions. -/
def tpdmTransform (Tau : Ten4) (C : Mat) (nbf : ℕ) : Ten4 :=
  (List.range nbf).map fun i => (List.range nbf).map fun j =>
    (List.range nbf).map fun u => (List.range nbf).map fun v =>
      rsum nbf fun p => rsum nbf fun q => rsum nbf fun r => rsum nbf fun s =>
        tidx Tau p q r s * midx C i p * midx C j q * midx C u r * midx C v s

/-- Squared Euclidean distance `R2[p, q]` between outer point `p` of block
`lb` and inner point `q` of block `rb`:
`(l_x[:, None] - r_x)² + (l_y[:, None] - r_y)² + (l_z[:, None] - r_z)²`. -/
def pairR2 (lb rb : Block) (p q : ℕ) : ℚ :=
  (idx lb.x p - idx rb.x q) ^ 2 + (idx lb.y p - idx rb.y q) ^ 2
    + (idx lb.z p - idx rb.z q) ^ 2

/-- The point-pair tensor `n_xc[p, q]` of the hole quadrature.  Correlated
branch (`"CIWavefunction"`): the two-particle density contracted against the
outer/inner basis values, scaled by the inverse outer density, minus the
inner local density `rho2`.  Mean-field branch (`"RHF"`): the same-spin
exchange term with factor `−2`, built from the alpha density `wfn.Da()`
fancy-indexed by the outer rows and inner columns, scaled by the inverse
outer density. -/
def nxcPair (wname : String) (D2 DaWfn : Mat) (Tau : Ten4)
    (llpos rlpos : List ℕ) (lphi rphi : Mat) (rho1inv : Vec) : ℕ → ℕ → ℚ :=
  if wname = "CIWavefunction" then
    let lD2 := submat D2 rlpos rlpos
    fun p q =>
      -- contract("mnuv,pm,pn,qu,qv->pq", Tap_temp, l_phi, l_phi, r_phi, r_phi)
      (rsum llpos.length fun m => rsum llpos.length fun n =>
        rsum rlpos.length fun u => rsum rlpos.length fun v =>
          tidx Tau (llpos.getD m 0) (llpos.getD n 0) (rlpos.getD u 0) (rlpos.getD v 0)
            * midx lphi p m * midx lphi p n * midx rphi q u * midx rphi q v) * idx rho1inv p
      - rhoAt lD2 rphi q rlpos.length
  else
    let lD2 := submat DaWfn llpos rlpos
    fun p q =>
      -- -2 * contract("mu,nv,pm,pn,qu,qv->pq", lD2, lD2, l_phi, l_phi, r_phi, r_phi)
      (-2) * (rsum llpos.length fun m => rsum rlpos.length fun u =>
        rsum llpos.length fun n => rsum rlpos.length fun v =>
          midx lD2 m u * midx lD2 n v
            * midx lphi p m * midx lphi p n * midx rphi q u * midx rphi q v) * idx rho1inv p

/-- Contribution of one inner block `rb` to the outer block's running sum
`dvp_l` (one pass of the inner loop body): evaluates the point-pair tensor,
builds the pairwise squared distances, guards near-coincident pairs
(`np.isclose(R2, 0.0, atol=atol)`, i.e. `|R2| ≤ atol`) by setting their
distance to `np.inf` — whose reciprocal square root is exactly `0` — and
accumulates `Σ_q n_xc * Rinv * r_w`. -/
def innerContrib (wname : String) (D2 DaWfn : Mat) (Tau : Ten4)
    (invsqrt : ℚ → ℚ) (atol : ℚ) (lb : Block) (lphi : Mat) (rho1inv : Vec)
    (rb : Block) : Vec :=
  let lnp := lb.x.length
  let rnp := rb.w.length
  let rlpos := rb.lpos
  let rphi := (rb.phi.take rnp).map (fun r => r.take rlpos.length)
  let nxc := nxcPair wname D2 DaWfn Tau lb.lpos rlpos lphi rphi rho1inv
  -- if np.any(np.isclose(R2, 0.0, atol=atol)): R2[close] = np.inf
  let anyClose := (List.range lnp).any (fun p =>
    (List.range rnp).any (fun q => decide (|pairR2 lb rb p q| ≤ atol)))
  let rinv : ℕ → ℕ → ℚ := fun p q =>
    if anyClose then
      (if |pairR2 lb rb p q| ≤ atol then 0 else invsqrt (pairR2 lb rb p q))
    else invsqrt (pairR2 lb rb p q)
  (List.range lnp).map (fun p => rsum rnp (fun q => nxc p q * rinv p q * idx rb.w q))

/-- The outer-block body of the hole quadrature: local outer density and its
pointwise inverse, then the inner loop folding every inner block's
contribution into `dvp_l` (initialized to `np.zeros_like(l_x)`). -/
def holeBlockDvp (wname : String) (D2 DaWfn : Mat) (Tau : Ten4)
    (invsqrt : ℚ → ℚ) (atol : ℚ) (innerBlocks : List Block) (lb : Block) : Vec :=
  let lnp := lb.x.length
  let llpos := lb.lpos
  let lphi := (lb.phi.take lnp).map (fun r => r.take llpos.length)
  let lD1 := submat D2 llpos llpos
  -- rho1inv = (1 / rho1)
  let rho1inv := (List.range lnp).map (fun p => 1 / rhoAt lD1 lphi p llpos.length)
  innerBlocks.foldl
    (fun dvp rb => vadd dvp (innerContrib wname D2 DaWfn Tau invsqrt atol lb lphi rho1inv rb))
    (List.replicate lnp 0)

/-- The two-particle density data of the hole quadrature: the MO-transformed
tensor on the correlated branch, unused (empty) on the mean-field branch. -/
def holeTau (s : Solver) : Ten4 :=
  if s.wfn.name = "CIWavefunction"
    then tpdmTransform s.wfn.TauRaw s.wfn.Ca s.nbf else []

/-- The one-particle density of the hole quadrature: `C @ opdm @ C.T` on the
correlated branch, `Da + Db` on the mean-field branch. -/
def holeD2 (s : Solver) : Mat :=
  if s.wfn.name = "CIWavefunction"
    then matMul (matMul s.wfn.Ca s.wfn.opdmAO) (matTrans s.wfn.Ca)
    else madd s.wfn.Da s.wfn.Db

/-- The computing path of `MRKS._vxc_hole_quadrature` (cache miss): branch
setup of the density data, then the double block loop.  The outer block set
comes from `grid_info` when given (else the internal DFT grid), while the
inner loop iterates `for r_block in range(self.Vpot.nblocks())` — always the
solver's internal DFT grid.  The final `assert w1_old == vxchole.shape[0]`
is the `none` branch; an unsupported wavefunction name would crash the loop
body (unbound `n_xc`), also `none`. -/
def vxcHoleQuadCompute (s : Solver) (invsqrt : ℚ → ℚ) (atol : ℚ)
    (gi : Option GridInfo) : Option Vec :=
  if s.wfn.name = "CIWavefunction" ∨ s.wfn.name = "RHF" then
    let r := resolveGrid s.Vpot s.npoints_DFT gi
    let vxchole :=
      (r.1.map (holeBlockDvp s.wfn.name (holeD2 s) s.wfn.Da (holeTau s)
        invsqrt atol s.Vpot)).flatten
    if vxchole.length = r.2 then some vxchole else none
  else none

/-- Shallow embedding of `MRKS._vxc_hole_quadrature(grid_info, atol)`: the
cached result is returned when present and no alternate grid is requested;
otherwise the quadrature is computed. -/
def vxc_hole_quadrature (s : Solver) (invsqrt : ℚ → ℚ) (gi : Option GridInfo)
    (atol : ℚ := 1 / 10000) : Option Vec :=
  if s.vxc_hole_WF.isSome ∧ gi = none then s.vxc_hole_WF
  else vxcHoleQuadCompute s invsqrt atol gi

/-- Modelled from the spec: the hole quadrature as a function of an explicit
outer grid (evaluation points) and an explicit inner grid (integration
blocks): "the alternate grid changes only the outer evaluation points, so
the double integral is always integrated against the internal grid".
Compared against `vxcHoleQuadCompute` in the claim about the inner grid. -/
def vxcHoleTwoGrid (s : Solver) (invsqrt : ℚ → ℚ) (atol : ℚ)
    (outerBlocks : List Block) (npts : ℕ) (innerBlocks : List Block) : Option Vec :=
  if s.wfn.name = "CIWavefunction" ∨ s.wfn.name = "RHF" then
    let vxchole :=
      (outerBlocks.map (holeBlockDvp s.wfn.name (holeD2 s) s.wfn.Da (holeTau s)
        invsqrt atol innerBlocks)).flatten
    if vxchole.length = npts then some vxchole else none
  else none

/-- The evolving Kohn–Sham state owned by the loop: the 4-tuple
`(self.Ca, self.Coca, self.Da, self.eigvecs_a)` returned by
`self.diagonalize(fock_a, self.nalpha)`. -/
structure KSState where
  Ca : Mat
  Coca : Mat
  Da : Mat
  eigvecs_a : Vec
deriving DecidableEq

/-- Parameters of the `mRKS` fixed-point loop (everything the loop body of
lines 493–531 reads): the internal DFT grid, sizes, the pre-loop reference
quantities (`emax = np.max(ebarWF)`, `vxchole`, `ebarWF`, `taup_rho_WF`),
tolerances, mixing fraction, the one-electron matrices used by
`_diagonalize_with_potential_mRKS`, and the two external engine
capabilities `dft_grid_to_fock` and `diagonalize`. -/
structure LoopParams where
  VpotBlocks : List Block
  npointsDFT : ℕ
  nbf : ℕ
  Nalpha : ℕ
  emax : ℚ
  vxchole : Vec
  ebarWF : Vec
  taupWF : Vec
  v_tol : ℚ
  D_tol : ℚ
  eig_tol : ℚ
  frac_old : ℚ
  T : Mat
  V : Mat
  va : Mat
  dft_grid_to_fock : Vec → Mat
  diagonalize : Mat → ℕ → KSState

/-- Shallow embedding of `MRKS._diagonalize_with_potential_mRKS(v)`: builds
`fock_a = self.V + self.T + self.va + v` and requests diagonalization from
the external engine (the `ref == 1` branch merely copies the alpha data to
the beta side). -/
def diagonalize_with_potential_mRKS (P : LoopParams) (v : Mat) : KSState :=
  P.diagonalize (madd (madd (madd P.V P.T) P.va) v) P.Nalpha

/-- How one loop iteration ended: converged-by-potential (`verror < v_tol`,
first `break`), converged-by-state (`Derror < D_tol and eerror < eig_tol`,
second `break`), or continue to mixing and re-diagonalization. -/
inductive Outcome
  | byPotential
  | byState
  | cont
deriving DecidableEq

/-- Observation record of one iteration of the `mRKS` loop: the iteration
index (1-based `mRKS_step`), the state quantities the iteration read, the
computed quadrature quantities, shift and assembled candidate, the "old"
baselines the error norms were taken against (`none` encodes the scalar
`0.0` initialization before the first iteration), the outcome, and the
mixed potential (`some` exactly when the iteration continued). -/
structure IterRec where
  step : ℕ
  Da : Mat
  Coca : Mat
  eigs : Vec
  ebarKS : Vec
  taupKS : Vec
  shift : ℚ
  cand : Vec
  vxcOldIn : Option Vec
  DaOldIn : Option Mat
  eigOldIn : Option Vec
  outcome : Outcome
  mixed : Option Vec
deriving DecidableEq

/-- The values of `vxc`, `ebarKS`, `taup_rho_KS` and `self.shift` left over
from the most recent completed iteration (what the function returns when the
loop exhausts `maxiter`). -/
structure LastVals where
  vxc : Vec
  ebarKS : Vec
  taupKS : Vec
  shift : ℚ
deriving DecidableEq

/-- Result of the loop: the returned fields, the final Kohn–Sham state and
`self.shift`, the iteration trace, and whether a convergence `break` fired. -/
structure LoopOut where
  vxc : Vec
  ebarKS : Vec
  taupKS : Vec
  finalState : KSState
  shift : ℚ
  trace : List IterRec
  converged : Bool
deriving DecidableEq

/-- The main-loop potential shift (line 499):
`potential_shift = emax - np.max(ebarKS)`, where `emax` is `np.max(ebarWF)`
computed once on the internal grid before the loop. -/
def mainLoopShift (emax : ℚ) (ebarKS : Vec) : ℚ := emax - npMax ebarKS

/-- The output-grid re-evaluation potential shift (line 555):
`potential_shift = np.max(ebarWF) - np.max(ebarKS)`, with both averages
re-evaluated on the output grid. -/
def outputGridShift (ebarWF ebarKS : Vec) : ℚ := npMax ebarWF - npMax ebarKS

/-- The assembled candidate potential
`vxc = vxchole + ebarKS - ebarWF + taup_rho_WF - taup_rho_KS +
potential_shift` (elementwise on equal-length grid arrays, plus the scalar
shift). -/
def assembleV (hole eKS eWF tWF tKS : Vec) (sh : ℚ) : Vec :=
  (vsub (vadd (vsub (vadd hole eKS) eWF) tWF) tKS).map (fun a => a + sh)

/-- Difference against an "old" baseline: `x - old` where `old` is either
the scalar `0.0` the baselines are initialized to (numpy broadcast, the
difference is `x` itself) or the saved array. -/
def subOldV (x : Vec) : Option Vec → Vec
  | none => x
  | some y => vsub x y

/-- Matrix version of `subOldV` (for `self.Da - Da_old`). -/
def subOldM (X : Mat) : Option Mat → Mat
  | none => X
  | some Y => msub X Y

/-- The linear mixture `vxc = vxc * (1 - frac_old) + vxc_old * frac_old`.
The `none` case is the numpy broadcast against the scalar `0.0` baseline
(unreachable in the loop, which only mixes from the second iteration on). -/
def mixPot (cand : Vec) (old : Option Vec) (f : ℚ) : Vec :=
  match old with
  | some v => List.zipWith (fun a b => a * (1 - f) + b * f) cand v
  | none => cand.map (fun a => a * (1 - f) + 0 * f)

/-- One recursive unrolling of the `for mRKS_step in range(1, maxiter + 1)`
loop (lines 493–531), recursing on the remaining iteration budget `fuel`
with the 1-based iteration index `step`.  Each iteration: compute `ebarKS`
and `taup_rho_KS` on the internal grid, shift and assemble the candidate
`vxc`; `break` if `verror < v_tol`; else `break` if `Derror < D_tol and
eerror < eig_tol`; else mix (skipped when `mRKS_step == 1`), save the old
baselines, convert the potential to a Fock contribution and re-diagonalize.
Exhausted fuel returns the fields of the last completed iteration (`none`
when no iteration ever ran — the Python `return` would hit unbound
locals). -/
def loopGo (P : LoopParams) : ℕ → ℕ → KSState → Option Vec → Option Mat →
    Option Vec → Option LastVals → Option LoopOut
  | 0, _, st, _, _, _, last =>
    match last with
    | none => none
    | some lv => some ⟨lv.vxc, lv.ebarKS, lv.taupKS, st, lv.shift, [], false⟩
  | fuel + 1, step, st, vxcOld, DaOld, eigOld, _ =>
    match average_local_orbital_energy P.VpotBlocks P.npointsDFT st.Da st.Coca
        (st.eigvecs_a.take P.Nalpha) none with
    | none => none
    | some ebarKS =>
      match pauli_kinetic_energy_density P.VpotBlocks P.npointsDFT st.Da st.Coca
          none none with
      | none => none
      | some taupKS =>
        let sh := mainLoopShift P.emax ebarKS
        let cand := assembleV P.vxchole ebarKS P.ebarWF P.taupWF taupKS sh
        -- verror = np.linalg.norm(vxc - vxc_old) / self.nbf ** 2 ; verror < v_tol
        if normTolLt (sumSq (subOldV cand vxcOld)) ((P.nbf : ℚ) ^ 2) P.v_tol then
          some ⟨cand, ebarKS, taupKS, st, sh,
            [⟨step, st.Da, st.Coca, st.eigvecs_a.take P.Nalpha, ebarKS, taupKS, sh, cand,
              vxcOld, DaOld, eigOld, Outcome.byPotential, none⟩], true⟩
        -- Derror < D_tol and eerror < eig_tol
        else if normTolLt (sumSqM (subOldM st.Da DaOld)) ((P.nbf : ℚ) ^ 2) P.D_tol
            && normTolLt (sumSq (subOldV (st.eigvecs_a.take P.Nalpha) eigOld))
              (P.Nalpha : ℚ) P.eig_tol then
          some ⟨cand, ebarKS, taupKS, st, sh,
            [⟨step, st.Da, st.Coca, st.eigvecs_a.take P.Nalpha, ebarKS, taupKS, sh, cand,
              vxcOld, DaOld, eigOld, Outcome.byState, none⟩], true⟩
        else
          -- linear mixture, skipped on the first iteration
          let mixed := if step = 1 then cand else mixPot cand vxcOld P.frac_old
          -- save old data, then vxc_Fock = dft_grid_to_fock(vxc) and re-diagonalize
          let st' := diagonalize_with_potential_mRKS P (P.dft_grid_to_fock mixed)
          (loopGo P fuel (step + 1) st' (some mixed) (some st.Da)
              (some (st.eigvecs_a.take P.Nalpha)) (some ⟨mixed, ebarKS, taupKS, sh⟩)).map
            (fun out => { out with trace :=
              ⟨step, st.Da, st.Coca, st.eigvecs_a.take P.Nalpha, ebarKS, taupKS, sh, cand,
                vxcOld, DaOld, eigOld, Outcome.cont, some mixed⟩ :: out.trace })

/-- The `mRKS` fixed-point loop run for `maxiter` iterations from the
initial guess state, with the three "old" baselines initialized to the
scalar `0.0` (`vxc_old = 0.0; Da_old = 0.0; eig_old = 0.0`). -/
def runLoop (P : LoopParams) (st0 : KSState) (maxiter : ℕ) : Option LoopOut :=
  loopGo P maxiter 1 st0 none none none none

/-- Number of re-diagonalization requests issued to the external engine
during a loop run: one per iteration that did not `break`. -/
def diagRequests (out : LoopOut) : ℕ :=
  (out.trace.filter (fun r => decide (r.outcome = Outcome.cont))).length

/-- Scalar multiple of a matrix. -/
def matSmul (c : ℚ) (M : Mat) : Mat := M.map (fun r => r.map (fun a => c * a))

/-- The AO→MO electron-repulsion-integral transform
`contract("ijkl,ip,jq,kr,ls", I, Ca, Ca, Ca, Ca)` (implicit einsum output
`pqrs`). -/
def eriTransform (I : Ten4) (C : Mat) (nbf : ℕ) : Ten4 :=
  (List.range nbf).map fun p => (List.range nbf).map fun q =>
    (List.range nbf).map fun r => (List.range nbf).map fun s =>
      rsum nbf fun i => rsum nbf fun j => rsum nbf fun k => rsum nbf fun l =>
        tidx I i j k l * midx C i p * midx C j q * midx C k r * midx C l s

/-- The symmetrization `0.5 * I + 0.25 * I.transpose(0, 1, 3, 2) + 0.25 *
I.transpose(1, 0, 2, 3)`. -/
def eriSym (I : Ten4) (nbf : ℕ) : Ten4 :=
  (List.range nbf).map fun p => (List.range nbf).map fun q =>
    (List.range nbf).map fun r => (List.range nbf).map fun s =>
      (1 / 2) * tidx I p q r s + (1 / 4) * tidx I p q s r + (1 / 4) * tidx I q p r s

/-- The two-particle contribution to the generalized Fock matrix,
`contract("rsnq,rsmq->mn", I, tpdm)`. -/
def gfmContract (I tpdm : Ten4) (nbf : ℕ) : Mat :=
  (List.range nbf).map fun m => (List.range nbf).map fun n =>
    rsum nbf fun r => rsum nbf fun s => rsum nbf fun q =>
      tidx I r s n q * tidx tpdm r s m q

/-- The message of the point-accounting assertion in every quadrature
pass. -/
def assertMsg : String := "Somehow the whole space is not fully integrated."

/-- Failure of the loop section: a quadrature assertion fired inside an
iteration, or no iteration ever ran and the `return` would hit unbound
locals. -/
def loopFailMsg : String := "mRKS loop aborted before producing fields."

/-- External engine capabilities required by `mRKS` (the psi4 calls of the
source): the constructed DFT grid blocks, the AO electron-repulsion
integrals, symmetric-matrix diagonalization in ascending/descending order
(`psi4.core.Matrix.diagonalize`), the grid-potential→Fock conversion
`dft_grid_to_fock`, the Fock diagonalization `self.diagonalize`, and the
initial-guess calculation `psi4.energy(init + "/" + basis)` returning
`(Da, Ca, epsilon_a)`. -/
structure Engine where
  VpotBlocks : List Block
  aoERI : Ten4
  matDiagAsc : Mat → Mat × Vec
  matDiagDesc : Mat → Mat × Vec
  dft_grid_to_fock : Vec → Mat
  diagonalize : Mat → ℕ → KSState
  initGuess : String → Mat × Mat × Vec

/-- The resolved `init` argument of `mRKS`: `"continue"` (keep the stored
state), a user-supplied wavefunction's `(Da, Ca, epsilon_a)`, or a psi4
method name run through the engine. -/
inductive InitGuess
  | contin
  | fromWfn (Da : Mat) (Ca : Mat) (eps : Vec)
  | methodName (nm : String)

/-- Reference-wavefunction preparation result: for a `CIWavefunction` the
generalized-Fock and natural-orbital data plus the two reference grid
quantities; for `RHF` the occupied orbital energies plus the two reference
grid quantities. -/
inductive PrepData
  | ci (C_a_GFM : Mat) (eigs_a_GFM : Vec) (C_a_NO : Mat) (eigs_a_NO : Vec)
      (ebarWF taupWF : Vec)
  | rhf (epsilon_a : Vec) (ebarWF taupWF : Vec)

/-- The reference orbital-energy average of a preparation. -/
def PrepData.ebarWF : PrepData → Vec
  | .ci _ _ _ _ e _ => e
  | .rhf _ e _ => e

/-- The reference Pauli kinetic density of a preparation. -/
def PrepData.taupWF : PrepData → Vec
  | .ci _ _ _ _ _ t => t
  | .rhf _ _ t => t

/-- The `CIWavefunction` preparation (lines 406–462): the TPDM/ERI memory
check (`I_size = nbf⁴ · 8e-9 · 2` against the 2 GB `numpy_memory` budget,
fatal when exceeded), the generalized Fock matrix build
(`F_GFM = opdm @ h + contract("rsnq,rsmq->mn", I, tpdm)`, symmetrized),
its ascending diagonalization and the natural-orbital (descending)
diagonalization of `opdm` — halved eigenvalues (RHF), coefficients back to
AOs — then the two reference quadrature quantities. -/
def ciPrep (s : Solver) (eng : Engine) : Except String PrepData :=
  if (s.nbf : ℚ) ^ 4 * (8 / 10 ^ 9) * 2 > 2 then
    .error ("Estimated memory utilization exceeds allotted memory limit.")
  else
    let opdm := s.wfn.opdmMO
    let tpdm := s.wfn.TauRaw
    let Ca := s.wfn.Ca
    let Imo := eriSym (eriTransform eng.aoERI Ca s.nbf) s.nbf
    let h := matMul (matMul (matTrans Ca) (madd s.T s.V)) Ca
    let F0 := madd (matMul opdm h) (gfmContract Imo tpdm s.nbf)
    let F_GFM := matSmul (1 / 2) (madd F0 (matTrans F0))
    let dg := eng.matDiagAsc F_GFM
    let eigs_a_GFM := dg.2.map (fun a => a / 2)
    let C_a_GFM := matMul Ca dg.1
    let dn := eng.matDiagDesc opdm
    let eigs_a_NO := dn.2.map (fun a => a / 2)
    let C_a_NO := matMul Ca dn.1
    match average_local_orbital_energy s.Vpot s.npoints_DFT (s.nt.getD 0 [])
        C_a_GFM eigs_a_GFM none with
    | none => .error assertMsg
    | some ebarWF =>
      match pauli_kinetic_energy_density s.Vpot s.npoints_DFT (s.nt.getD 0 [])
          C_a_NO (some eigs_a_NO) none with
      | none => .error assertMsg
      | some taupWF => .ok (.ci C_a_GFM eigs_a_GFM C_a_NO eigs_a_NO ebarWF taupWF)

/-- The `RHF` preparation (lines 463–466): occupied orbital energies, the
reference orbital-energy average over the occupied coefficients
`ct[0][:, :Nalpha]`, and the reference Pauli kinetic density over
`ct[0]`. -/
def rhfPrep (s : Solver) : Except String PrepData :=
  let epsilon_a := s.wfn.epsOcc
  match average_local_orbital_energy s.Vpot s.npoints_DFT (s.nt.getD 0 [])
      (matTake (s.ct.getD 0 []) s.nalpha) epsilon_a none with
  | none => .error assertMsg
  | some ebarWF =>
    match pauli_kinetic_energy_density s.Vpot s.npoints_DFT (s.nt.getD 0 [])
        (s.ct.getD 0 []) none none with
    | none => .error assertMsg
    | some taupWF => .ok (.rhf epsilon_a ebarWF taupWF)

/-- The loop parameters `mRKS` hands to the fixed-point loop: in particular
`emax = np.max(ebarWF)` is fixed here, once, from the internal-grid
reference orbital-energy average computed before the loop. -/
def loopParamsOf (s : Solver) (eng : Engine) (ebarWF taupWF vxchole : Vec)
    (v_tol D_tol eig_tol frac_old : ℚ) : LoopParams :=
  { VpotBlocks := s.Vpot, npointsDFT := s.npoints_DFT, nbf := s.nbf,
    Nalpha := s.nalpha, emax := npMax ebarWF, vxchole := vxchole,
    ebarWF := ebarWF, taupWF := taupWF, v_tol := v_tol, D_tol := D_tol,
    eig_tol := eig_tol, frac_old := frac_old, T := s.T, V := s.V, va := s.va,
    dft_grid_to_fock := eng.dft_grid_to_fock, diagonalize := eng.diagonalize }

/-- The six grid-valued arrays and the shift produced by the output-grid
re-evaluation. -/
structure OutGrid where
  vxc : Vec
  vxchole : Vec
  ebarKS : Vec
  ebarWF : Vec
  taupWF : Vec
  taupKS : Vec
  shift : ℚ
deriving DecidableEq

/-- The output-grid re-evaluation (lines 533–558): every quadrature quantity
and the final potential recomputed on the user-supplied grid, with the shift
`np.max(ebarWF) - np.max(ebarKS)` from the re-evaluated averages.  (The
`set_pointers` call on the alternate grid's `points_func` is a psi4 side
effect with no counterpart here: basis values are data.) -/
def outputRecompute (s : Solver) (invsqrt : ℚ → ℚ) (prep : PrepData)
    (gi : GridInfo) : Option OutGrid := do
  let vxchole ← vxc_hole_quadrature s invsqrt (some gi)
  let wf ← match prep with
    | .ci C_a_GFM eigs_a_GFM C_a_NO eigs_a_NO _ _ => do
      let a ← average_local_orbital_energy s.Vpot s.npoints_DFT (s.nt.getD 0 [])
        C_a_GFM eigs_a_GFM (some gi)
      let b ← pauli_kinetic_energy_density s.Vpot s.npoints_DFT (s.nt.getD 0 [])
        C_a_NO (some eigs_a_NO) (some gi)
      pure (a, b)
    | .rhf epsilon_a _ _ => do
      let a ← average_local_orbital_energy s.Vpot s.npoints_DFT (s.nt.getD 0 [])
        (s.ct.getD 0 []) (epsilon_a.take s.nalpha) (some gi)
      let b ← pauli_kinetic_energy_density s.Vpot s.npoints_DFT (s.nt.getD 0 [])
        (s.ct.getD 0 []) none (some gi)
      pure (a, b)
  let ebarKS ← average_local_orbital_energy s.Vpot s.npoints_DFT s.Da s.Coca
    (s.eigvecs_a.take s.nalpha) (some gi)
  let taupKS ← pauli_kinetic_energy_density s.Vpot s.npoints_DFT s.Da s.Coca
    none (some gi)
  let sh := outputGridShift wf.1 ebarKS
  some ⟨assembleV vxchole ebarKS wf.1 wf.2 taupKS sh, vxchole, ebarKS, wf.1, wf.2, taupKS, sh⟩

/-- The public return value of `mRKS`: the six grid arrays of the source's
return statement, plus (as pure observations for the verification) the
pre-loop `emax`, the internal-grid reference orbital-energy average, the
iteration trace and the convergence flag. -/
structure MRKSOut where
  vxc : Vec
  vxchole : Vec
  ebarKS : Vec
  ebarWF : Vec
  taupWF : Vec
  taupKS : Vec
  emax : ℚ
  ebarWFInternal : Vec
  trace : List IterRec
  converged : Bool
deriving DecidableEq

/-- Shallow embedding of `MRKS.mRKS(maxiter, vxc_grid, v_tol, D_tol,
eig_tol, frac_old, init)`.  Returns the (possibly partially) mutated solver
together with the result or the raised error.  Configuration validation
(wavefunction kind, spin restriction, guide potential) happens first, before
any grid construction, quadrature or iteration; then the grid is attached,
the reference quantities and the cached hole potential are computed, the
state is initialized, the fixed-point loop runs, and optionally everything
is re-evaluated on the user-supplied output grid. -/
def mRKS (s : Solver) (eng : Engine) (invsqrt : ℚ → ℚ) (maxiter : ℕ)
    (vxc_grid : Option GridInfo) (v_tol D_tol eig_tol frac_old : ℚ)
    (init : InitGuess) : Solver × Except String MRKSOut :=
  if ¬ (s.wfn.name = "CIWavefunction" ∨ s.wfn.name = "RHF") then
    (s, .error ("Currently only supports Psi4 CI wavefunction inputs because Psi4 CCSD wavefunction currently does not support two-particle density matrices."))
  else if s.ref ≠ 1 then
    (s, .error ("Currently only supports Spin-Restricted calculations since Spin-Unrestricted CI is not supported by Psi4."))
  else
    match s.guide_potential_components with
    | [] => (s, .error ("IndexError: list index out of range"))
    | g0 :: _ =>
      if g0 ≠ "hartree" then
        (s, .error ("Hartree potential is necessary as the guide potential."))
      else
        -- Preparing DFT spherical grid; npoints_DFT accumulated over blocks
        let s1 := { s with
                    Vpot := eng.VpotBlocks
                    npoints_DFT := totalPts eng.VpotBlocks }
        -- Preparing for WF properties
        match (if s1.wfn.name = "CIWavefunction" then ciPrep s1 eng else rhfPrep s1) with
        | .error e => (s1, .error e)
        | .ok prep =>
          match vxc_hole_quadrature s1 invsqrt none with
          | none => (s1, .error assertMsg)
          | some vxchole =>
            let s2 := { s1 with vxc_hole_WF := some vxchole }
            let emax := npMax prep.ebarWF
            -- Initialization
            let s3 := match init with
              | .contin => s2
              | .fromWfn Da Ca eps =>
                { s2 with
                  Da := Da
                  Coca := matTake Ca s2.nalpha
                  eigvecs_a := eps }
              | .methodName nm =>
                let g := eng.initGuess nm
                { s2 with
                  Da := g.1
                  Coca := matTake g.2.1 s2.nalpha
                  eigvecs_a := g.2.2 }
            let st0 : KSState := ⟨s3.Ca, s3.Coca, s3.Da, s3.eigvecs_a⟩
            let P := loopParamsOf s3 eng prep.ebarWF prep.taupWF vxchole
              v_tol D_tol eig_tol frac_old
            match runLoop P st0 maxiter with
            | none => (s3, .error loopFailMsg)
            | some out =>
              let s4 := { s3 with
                          Ca := out.finalState.Ca
                          Coca := out.finalState.Coca
                          Da := out.finalState.Da
                          eigvecs_a := out.finalState.eigvecs_a
                          shift := out.shift }
              match vxc_grid with
              | none =>
                (s4, .ok ⟨out.vxc, vxchole, out.ebarKS, prep.ebarWF, prep.taupWF,
                  out.taupKS, emax, prep.ebarWF, out.trace, out.converged⟩)
              | some gi =>
                match outputRecompute s4 invsqrt prep gi with
                | none => (s4, .error assertMsg)
                | some o =>
                  ({ s4 with shift := o.shift },
                   .ok ⟨o.vxc, o.vxchole, o.ebarKS, o.ebarWF, o.taupWF, o.taupKS,
                     emax, prep.ebarWF, out.trace, out.converged⟩)

/-- The first `break` condition of an iteration, in terms of its record:
`verror < v_tol` where `verror = ‖vxc − vxc_old‖ / nbf²` (the comparison is
the exact rational `normTolLt` encoding of it). -/
def potCond (P : LoopParams) (r : IterRec) : Prop :=
  normTolLt (sumSq (subOldV r.cand r.vxcOldIn)) ((P.nbf : ℚ) ^ 2) P.v_tol = true

/-- The second `break` condition of an iteration:
`Derror < D_tol and eerror < eig_tol` where `Derror = ‖Da − Da_old‖ / nbf²`
and `eerror = ‖eig_occ − eig_old‖ / Nalpha`. -/
def stateCond (P : LoopParams) (r : IterRec) : Prop :=
  normTolLt (sumSqM (subOldM r.Da r.DaOldIn)) ((P.nbf : ℚ) ^ 2) P.D_tol = true ∧
    normTolLt (sumSq (subOldV r.eigs r.eigOldIn)) ((P.Nalpha : ℚ)) P.eig_tol = true

/-- The length of every candidate potential assembled by the loop (all five
assembled arrays have per-iteration-independent lengths: the two
state-dependent ones always come out of the quadrature with
`npointsDFT` entries). -/
def candLen (P : LoopParams) : ℕ :=
  min (min (min (min P.vxchole.length P.npointsDFT) P.ebarWF.length)
    P.taupWF.length) P.npointsDFT

/-! ### Concrete fixtures (single block, single point, single basis
function) used to instantiate the theorems below on closed inputs. -/

/-- One grid block with a single point at the origin, unit weight, one
active basis function with value 1 and vanishing derivatives. -/
def wB : Block := ⟨[0], [0], [0], [1], [0], [[1]], [[0]], [[0]], [[0]]⟩

/-- A 1-basis-function Kohn–Sham state. -/
def wSt : KSState := ⟨[[1]], [[1]], [[1]], [0]⟩

/-- Loop parameters over the `wB` grid that converge by potential on the
first iteration (`v_tol = 1`). -/
def wP : LoopParams :=
  { VpotBlocks := [wB], npointsDFT := 1, nbf := 1, Nalpha := 1, emax := 0,
    vxchole := [0], ebarWF := [0], taupWF := [0],
    v_tol := 1, D_tol := 1, eig_tol := 1, frac_old := 0,
    T := [[0]], V := [[0]], va := [[0]],
    dft_grid_to_fock := fun _ => [[0]], diagonalize := fun _ _ => wSt }

/-- Loop parameters that can never converge (negative tolerances), with a
nontrivial mixing fraction. -/
def wPn : LoopParams :=
  { wP with v_tol := -1, D_tol := -1, eig_tol := -1, frac_old := 1 / 2 }

/-- The iteration record produced by the first (converging) iteration under
`wP`. -/
def wRec : IterRec :=
  ⟨1, [[1]], [[1]], [0], [0], [0], 0, [0], none, none, none, Outcome.byPotential, none⟩

/-- The loop output under `wP`. -/
def wOut : LoopOut := ⟨[0], [0], [0], wSt, 0, [wRec], true⟩

/-- A default `LoopOut` for `Option.getD` extractions in fixtures. -/
def wOutDefault : LoopOut := ⟨[], [], [], ⟨[], [], [], []⟩, 0, [], false⟩

/-- A default `IterRec` for `List.getD` extractions in fixtures. -/
def wRecDefault : IterRec :=
  ⟨0, [], [], [], [], [], 0, [], none, none, none, Outcome.cont, none⟩

/-- The output of the two-iteration never-converging run under `wPn`. -/
def wOutN : LoopOut := (runLoop wPn wSt 2).getD wOutDefault

/-- The second iteration record of that run (the one that actually
mixes). -/
def wRecN2 : IterRec := wOutN.trace.getD 1 wRecDefault

/-- The RHF-flavored reference wavefunction fixture. -/
def wWfn : Wfn := ⟨"RHF", [], [[1]], [[1]], [[1]], [[1/2]], [[1/2]], [0]⟩

/-- A restricted single-basis-function solver fixture. -/
def wSolver : Solver :=
  { wfn := wWfn, ref := 1, guide_potential_components := ["hartree"],
    nalpha := 1, nbf := 1, nt := [[[1]]], ct := [[[1]]],
    T := [[0]], V := [[0]], va := [[0]], Da := [[1]], Coca := [[1]],
    Ca := [[1]], eigvecs_a := [0], shift := 0, Vpot := [wB],
    npoints_DFT := 1, vxc_hole_WF := none }

/-- A misconfigured solver: spin-unrestricted (`ref = 2`). -/
def wBadSolver : Solver := { wSolver with ref := 2 }

/-- An engine fixture over the `wB` grid. -/
def wEngine : Engine :=
  { VpotBlocks := [wB], aoERI := [], matDiagAsc := fun _ => ([[1]], [0]),
    matDiagDesc := fun _ => ([[1]], [0]), dft_grid_to_fock := fun _ => [[0]],
    diagonalize := fun _ _ => wSt, initGuess := fun _ => ([[1]], [[1]], [0]) }

/-! ### Grounding of the error-norm comparison encoding -/

/-- The rational comparison `normTolLt sq d tol` agrees exactly with the
real-valued comparison `‖Δ‖ / d < tol` computed by the source
(where `sq = ‖Δ‖²` and `d > 0`). -/
theorem normTolLt_iff_sqrt {sq d tol : ℚ} (hd : 0 < d) :
    normTolLt sq d tol = true ↔ Real.sqrt (sq : ℝ) / (d : ℝ) < (tol : ℝ) := by
  have hdR : (0 : ℝ) < (d : ℝ) := by exact_mod_cast hd
  rw [div_lt_iff₀ hdR]
  constructor
  · intro h
    simp only [normTolLt, Bool.and_eq_true, decide_eq_true_eq] at h
    have hy : (0 : ℝ) < (tol : ℝ) * d := by exact_mod_cast h.1
    refine (Real.sqrt_lt' hy).2 ?_
    exact_mod_cast h.2
  · intro h
    have hy : (0 : ℝ) < (tol : ℝ) * d :=
      lt_of_le_of_lt (Real.sqrt_nonneg _) h
    have h2 := (Real.sqrt_lt' hy).1 h
    simp only [normTolLt, Bool.and_eq_true, decide_eq_true_eq]
    refine ⟨by exact_mod_cast hy, ?_⟩
    push_cast at h2
    exact_mod_cast h2

/-- A nonpositive tolerance can never be met: the error norms are
nonnegative. -/
theorem normTolLt_eq_false_of_nonpos {sq d tol : ℚ} (htol : tol ≤ 0) (hd : 0 ≤ d) :
    normTolLt sq d tol = false := by
  have hled : tol * d ≤ 0 := mul_nonpos_iff.mpr (Or.inr ⟨htol, hd⟩)
  simp [normTolLt, not_lt.2 hled]

/-! ### Elementary list-indexing lemmas -/

theorem getD_map_range {f : ℕ → ℚ} {n p : ℕ} (hp : p < n) :
    ((List.range n).map f).getD p 0 = f p := by
  simp [List.getD_eq_getElem?_getD, List.getElem?_map, List.getElem?_range, hp]

theorem zipWith_getD {f : ℚ → ℚ → ℚ} {as bs : List ℚ} {i : ℕ}
    (h1 : i < as.length) (h2 : i < bs.length) :
    (List.zipWith f as bs).getD i 0 = f (as.getD i 0) (bs.getD i 0) := by
  simp [List.getD_eq_getElem?_getD, List.getElem?_zipWith,
    List.getElem?_eq_getElem, h1, h2]

theorem map_getD {g : ℚ → ℚ} {l : List ℚ} {i : ℕ} (h : i < l.length) :
    (l.map g).getD i 0 = g (l.getD i 0) := by
  simp [List.getD_eq_getElem?_getD, List.getElem?_map, List.getElem?_eq_getElem, h]

theorem assembleV_length (hole e w t k : Vec) (sh : ℚ) :
    (assembleV hole e w t k sh).length =
      min (min (min (min hole.length e.length) w.length) t.length) k.length := by
  simp [assembleV, vadd, vsub, List.length_zipWith]

/-- Pointwise reading of the assembled candidate potential. -/
theorem assembleV_getD {hole e w t k : Vec} {sh : ℚ} {i : ℕ}
    (hh : i < hole.length) (he : i < e.length) (hw : i < w.length)
    (ht : i < t.length) (hk : i < k.length) :
    (assembleV hole e w t k sh).getD i 0 =
      hole.getD i 0 + e.getD i 0 - w.getD i 0 + t.getD i 0 - k.getD i 0 + sh := by
  have l1 : i < (List.zipWith (fun a b => a + b) hole e).length := by
    simp [List.length_zipWith]; omega
  have l2 : i < (List.zipWith (fun a b => a - b)
      (List.zipWith (fun a b => a + b) hole e) w).length := by
    simp [List.length_zipWith]; omega
  have l3 : i < (List.zipWith (fun a b => a + b) (List.zipWith (fun a b => a - b)
      (List.zipWith (fun a b => a + b) hole e) w) t).length := by
    simp [List.length_zipWith]; omega
  have l4 : i < (List.zipWith (fun a b => a - b) (List.zipWith (fun a b => a + b)
      (List.zipWith (fun a b => a - b)
        (List.zipWith (fun a b => a + b) hole e) w) t) k).length := by
    simp [List.length_zipWith]; omega
  unfold assembleV vadd vsub
  rw [map_getD l4, zipWith_getD l3 hk, zipWith_getD l2 ht, zipWith_getD l1 hw,
    zipWith_getD hh he]

/-! ### Point accounting -/

theorem flatten_blocks_length {f : Block → Vec} (h : ∀ b, (f b).length = b.npts) :
    ∀ bs : List Block, ((bs.map f).flatten).length = totalPts bs := by
  intro bs
  induction bs with
  | nil => simp [totalPts]
  | cons b bs ih => simp [totalPts, h, List.map_cons] at ih ⊢; omega

theorem average_length_eq {B : List Block} {nDFT : ℕ} {D C : Mat} {e : Vec}
    {gi : Option GridInfo} {v : Vec}
    (h : average_local_orbital_energy B nDFT D C e gi = some v) :
    v.length = (resolveGrid B nDFT gi).2 := by
  simp only [average_local_orbital_energy] at h
  split at h
  · next hc => cases h; exact hc
  · exact absurd h (by simp)

theorem average_flatten_length (B : List Block) (nDFT : ℕ) (D C : Mat) (e : Vec)
    (gi : Option GridInfo) :
    (((resolveGrid B nDFT gi).1.map
      (fun b => (List.range b.npts).map (avgPoint D C e b))).flatten).length =
      totalPts (resolveGrid B nDFT gi).1 :=
  flatten_blocks_length (fun b => by simp) _

/-- The assert passes (and no point is truncated) exactly when the blocks
partition the point count. -/
theorem average_eq_some_iff {B : List Block} {nDFT : ℕ} {D C : Mat} {e : Vec}
    {gi : Option GridInfo} :
    (∃ v, average_local_orbital_energy B nDFT D C e gi = some v ∧
        v.length = (resolveGrid B nDFT gi).2) ↔
      totalPts (resolveGrid B nDFT gi).1 = (resolveGrid B nDFT gi).2 := by
  constructor
  · rintro ⟨v, hv, hlen⟩
    simp only [average_local_orbital_energy] at hv
    split at hv
    · next hc => rw [← average_flatten_length B nDFT D C e gi]; exact hc
    · exact absurd hv (by simp)
  · intro h
    rw [← average_flatten_length B nDFT D C e gi] at h
    exact ⟨_, by simp only [average_local_orbital_energy]; rw [if_pos h], h⟩

theorem average_eq_none_of {B : List Block} {nDFT : ℕ} {D C : Mat} {e : Vec}
    {gi : Option GridInfo}
    (h : totalPts (resolveGrid B nDFT gi).1 ≠ (resolveGrid B nDFT gi).2) :
    average_local_orbital_energy B nDFT D C e gi = none := by
  rw [← average_flatten_length B nDFT D C e gi] at h
  simp only [average_local_orbital_energy]
  rw [if_neg h]

theorem pauli_flatten_length (B : List Block) (nDFT : ℕ) (D C : Mat) (occ : Vec)
    (gi : Option GridInfo) :
    (((resolveGrid B nDFT gi).1.map
      (fun b => (List.range b.npts).map (pauliPoint D C occ b))).flatten).length =
      totalPts (resolveGrid B nDFT gi).1 :=
  flatten_blocks_length (fun b => by simp) _

theorem pauli_length_eq {B : List Block} {nDFT : ℕ} {D C : Mat} {occ? : Option Vec}
    {gi : Option GridInfo} {v : Vec}
    (h : pauli_kinetic_energy_density B nDFT D C occ? gi = some v) :
    v.length = (resolveGrid B nDFT gi).2 := by
  simp only [pauli_kinetic_energy_density] at h
  split at h
  · next hc => cases h; exact hc
  · exact absurd h (by simp)

theorem pauli_eq_some_iff {B : List Block} {nDFT : ℕ} {D C : Mat} {occ? : Option Vec}
    {gi : Option GridInfo} :
    (∃ v, pauli_kinetic_energy_density B nDFT D C occ? gi = some v ∧
        v.length = (resolveGrid B nDFT gi).2) ↔
      totalPts (resolveGrid B nDFT gi).1 = (resolveGrid B nDFT gi).2 := by
  constructor
  · rintro ⟨v, hv, hlen⟩
    simp only [pauli_kinetic_energy_density] at hv
    split at hv
    · next hc => rw [← pauli_flatten_length B nDFT D C _ gi]; exact hc
    · exact absurd hv (by simp)
  · intro h
    rw [← pauli_flatten_length B nDFT D C
      (match occ? with
        | some o => o
        | none => List.replicate ((C.getD 0 []).length) 1) gi] at h
    exact ⟨_, by simp only [pauli_kinetic_energy_density]; rw [if_pos h], h⟩

theorem pauli_eq_none_of {B : List Block} {nDFT : ℕ} {D C : Mat} {occ? : Option Vec}
    {gi : Option GridInfo}
    (h : totalPts (resolveGrid B nDFT gi).1 ≠ (resolveGrid B nDFT gi).2) :
    pauli_kinetic_energy_density B nDFT D C occ? gi = none := by
  rw [← pauli_flatten_length B nDFT D C
    (match occ? with
      | some o => o
      | none => List.replicate ((C.getD 0 []).length) 1) gi] at h
  simp only [pauli_kinetic_energy_density]
  rw [if_neg h]

theorem modified_flatten_length (B : List Block) (nDFT : ℕ) (D C : Mat) (occ : Vec)
    (gi : Option GridInfo) :
    (((resolveGrid B nDFT gi).1.map
      (fun b => (List.range b.npts).map (modifiedPauliPoint D C occ b))).flatten).length =
      totalPts (resolveGrid B nDFT gi).1 :=
  flatten_blocks_length (fun b => by simp) _

theorem modified_eq_some_iff {B : List Block} {nDFT : ℕ} {D C : Mat}
    {occ? : Option Vec} {gi : Option GridInfo} :
    (∃ v, modified_pauli_kinetic_energy_density B nDFT D C occ? gi = some v ∧
        v.length = (resolveGrid B nDFT gi).2) ↔
      totalPts (resolveGrid B nDFT gi).1 = (resolveGrid B nDFT gi).2 := by
  constructor
  · rintro ⟨v, hv, hlen⟩
    simp only [modified_pauli_kinetic_energy_density] at hv
    split at hv
    · next hc => rw [← modified_flatten_length B nDFT D C _ gi]; exact hc
    · exact absurd hv (by simp)
  · intro h
    rw [← modified_flatten_length B nDFT D C
      (match occ? with
        | some o => o
        | none => List.replicate ((C.getD 0 []).length) 1) gi] at h
    exact ⟨_, by simp only [modified_pauli_kinetic_energy_density]; rw [if_pos h], h⟩

theorem modified_eq_none_of {B : List Block} {nDFT : ℕ} {D C : Mat}
    {occ? : Option Vec} {gi : Option GridInfo}
    (h : totalPts (resolveGrid B nDFT gi).1 ≠ (resolveGrid B nDFT gi).2) :
    modified_pauli_kinetic_energy_density B nDFT D C occ? gi = none := by
  rw [← modified_flatten_length B nDFT D C
    (match occ? with
      | some o => o
      | none => List.replicate ((C.getD 0 []).length) 1) gi] at h
  simp only [modified_pauli_kinetic_energy_density]
  rw [if_neg h]

theorem innerContrib_length (wname : String) (D2 DaWfn : Mat) (Tau : Ten4)
    (invsqrt : ℚ → ℚ) (atol : ℚ) (lb : Block) (lphi : Mat) (rho1inv : Vec)
    (rb : Block) :
    (innerContrib wname D2 DaWfn Tau invsqrt atol lb lphi rho1inv rb).length =
      lb.npts := by
  simp [innerContrib, Block.npts]

theorem holeBlockDvp_length (wname : String) (D2 DaWfn : Mat) (Tau : Ten4)
    (invsqrt : ℚ → ℚ) (atol : ℚ) (innerBlocks : List Block) (lb : Block) :
    (holeBlockDvp wname D2 DaWfn Tau invsqrt atol innerBlocks lb).length =
      lb.npts := by
  simp only [holeBlockDvp]
  have main : ∀ (bs : List Block) (dvp : Vec), dvp.length = lb.x.length →
      (bs.foldl (fun dvp rb =>
        vadd dvp (innerContrib wname D2 DaWfn Tau invsqrt atol lb
          ((lb.phi.take lb.x.length).map (fun r => r.take lb.lpos.length))
          ((List.range lb.x.length).map
            (fun p => 1 / rhoAt (submat D2 lb.lpos lb.lpos)
              ((lb.phi.take lb.x.length).map (fun r => r.take lb.lpos.length)) p
                lb.lpos.length)) rb)) dvp).length = lb.x.length := by
    intro bs
    induction bs with
    | nil => intro dvp h; exact h
    | cons b bs ih =>
      intro dvp h
      refine ih _ ?_
      have hc := innerContrib_length wname D2 DaWfn Tau invsqrt atol lb
        ((lb.phi.take lb.x.length).map (fun r => r.take lb.lpos.length))
        ((List.range lb.x.length).map
          (fun p => 1 / rhoAt (submat D2 lb.lpos lb.lpos)
            ((lb.phi.take lb.x.length).map (fun r => r.take lb.lpos.length)) p
              lb.lpos.length)) b
      simp only [vadd]
      rw [List.length_zipWith, h, hc]
      simp [Block.npts]
  exact main _ _ (by simp)

theorem hole_flatten_length (s : Solver) (invsqrt : ℚ → ℚ) (atol : ℚ)
    (D2 : Mat) (Tau : Ten4) (outer inner : List Block) :
    ((outer.map (holeBlockDvp s.wfn.name D2 s.wfn.Da Tau invsqrt atol inner)).flatten).length =
      totalPts outer :=
  flatten_blocks_length (holeBlockDvp_length _ _ _ _ _ _ _) _

theorem hole_eq_some_iff {s : Solver} {invsqrt : ℚ → ℚ} {atol : ℚ}
    {gi : Option GridInfo}
    (hname : s.wfn.name = "CIWavefunction" ∨ s.wfn.name = "RHF") :
    (∃ v, vxcHoleQuadCompute s invsqrt atol gi = some v ∧
        v.length = (resolveGrid s.Vpot s.npoints_DFT gi).2) ↔
      totalPts (resolveGrid s.Vpot s.npoints_DFT gi).1 =
        (resolveGrid s.Vpot s.npoints_DFT gi).2 := by
  constructor
  · rintro ⟨v, hv, hlen⟩
    simp only [vxcHoleQuadCompute] at hv
    rw [if_pos hname] at hv
    split at hv
    · next hc => rw [← hole_flatten_length s invsqrt atol _ _ _ s.Vpot]; exact hc
    · exact absurd hv (by simp)
  · intro h
    rw [← hole_flatten_length s invsqrt atol (holeD2 s) (holeTau s)
      (resolveGrid s.Vpot s.npoints_DFT gi).1 s.Vpot] at h
    refine ⟨_, ?_, h⟩
    simp only [vxcHoleQuadCompute]
    rw [if_pos hname, if_pos h]

theorem hole_eq_none_of {s : Solver} {invsqrt : ℚ → ℚ} {atol : ℚ}
    {gi : Option GridInfo}
    (hname : s.wfn.name = "CIWavefunction" ∨ s.wfn.name = "RHF")
    (h : totalPts (resolveGrid s.Vpot s.npoints_DFT gi).1 ≠
      (resolveGrid s.Vpot s.npoints_DFT gi).2) :
    vxcHoleQuadCompute s invsqrt atol gi = none := by
  rw [← hole_flatten_length s invsqrt atol (holeD2 s) (holeTau s)
    (resolveGrid s.Vpot s.npoints_DFT gi).1 s.Vpot] at h
  simp only [vxcHoleQuadCompute]
  rw [if_pos hname, if_neg h]

/-! ### Loop trace lemmas -/

theorem getLast?_cons_of_ne_nil {α} (a : α) {l : List α} (h : l ≠ []) :
    (a :: l).getLast? = l.getLast? := by
  cases l with
  | nil => exact absurd rfl h
  | cons b l => exact List.getLast?_cons_cons

/-- Every record of a loop trace carries its outcome exactly according to the
two sequential break conditions, the potential condition deciding first; a
breaking record is the last one of the trace. -/
theorem loopGo_trace_spec (P : LoopParams) :
    ∀ (fuel step : ℕ) (st : KSState) (vo : Option Vec) (dao : Option Mat)
      (eo : Option Vec) (lv : Option LastVals) (out : LoopOut),
      loopGo P fuel step st vo dao eo lv = some out →
      ∀ rec ∈ out.trace,
        (rec.outcome = Outcome.byPotential ↔ potCond P rec) ∧
        (rec.outcome = Outcome.byState ↔ (¬ potCond P rec ∧ stateCond P rec)) ∧
        (rec.outcome = Outcome.cont ↔ (¬ potCond P rec ∧ ¬ stateCond P rec)) ∧
        (rec.outcome ≠ Outcome.cont → out.trace.getLast? = some rec) := by
  intro fuel
  induction fuel with
  | zero =>
    intro step st vo dao eo lv out h rec hrec
    simp only [loopGo] at h
    cases lv with
    | none => exact absurd h (by simp)
    | some lv' =>
      simp only [Option.some.injEq] at h
      subst h
      simp at hrec
  | succ fuel ih =>
    intro step st vo dao eo lv out h rec hrec
    rw [loopGo] at h
    cases havg : average_local_orbital_energy P.VpotBlocks P.npointsDFT st.Da
        st.Coca (st.eigvecs_a.take P.Nalpha) none with
    | none => rw [havg] at h; exact absurd h (by simp)
    | some ebarKS =>
      rw [havg] at h
      cases hpau : pauli_kinetic_energy_density P.VpotBlocks P.npointsDFT st.Da
          st.Coca none none with
      | none => rw [hpau] at h; exact absurd h (by simp)
      | some taupKS =>
        rw [hpau] at h
        simp only [] at h
        split at h
        · -- verror < v_tol : break by potential
          next h1 =>
          simp only [Option.some.injEq] at h
          subst h
          simp only [List.mem_singleton] at hrec
          subst hrec
          refine ⟨?_, ?_, ?_, ?_⟩ <;> simp [potCond, stateCond, h1]
        · -- verror ≥ v_tol : check the state condition
          next h1 =>
          split at h
          · -- Derror < D_tol and eerror < eig_tol : break by state
            next h2 =>
            simp only [Option.some.injEq] at h
            subst h
            simp only [List.mem_singleton] at hrec
            subst hrec
            rw [Bool.and_eq_true] at h2
            refine ⟨?_, ?_, ?_, ?_⟩ <;>
              simp [potCond, stateCond, h1, h2.1, h2.2]
          · -- continue: mix, save, re-diagonalize, recurse
            next h2 =>
            rw [Option.map_eq_some'] at h
            rcases h with ⟨out', hrec2, hout⟩
            subst hout
            simp only [List.mem_cons] at hrec
            have hnstate : ¬ (normTolLt (sumSqM (subOldM st.Da dao))
                ((P.nbf : ℚ) ^ 2) P.D_tol = true ∧
                normTolLt (sumSq (subOldV (st.eigvecs_a.take P.Nalpha) eo))
                  ((P.Nalpha : ℚ)) P.eig_tol = true) := by
              rw [← Bool.and_eq_true]; exact h2
            rcases hrec with hrec | hrec
            · subst hrec
              refine ⟨?_, ?_, ?_, ?_⟩ <;> simp [potCond, stateCond, h1, hnstate]
            · have ihres := ih (step + 1) _ _ _ _ _ out' hrec2 rec hrec
              refine ⟨ihres.1, ihres.2.1, ihres.2.2.1, ?_⟩
              intro hne
              have hlast := ihres.2.2.2 hne
              have hne2 : out'.trace ≠ [] := by
                intro hnil; rw [hnil] at hrec; simp at hrec
              simp only []
              rw [getLast?_cons_of_ne_nil _ hne2]
              exact hlast

/-- Every record of a loop trace was built by the loop body: its quadrature
quantities come from the embedded operations on its state, its shift is the
main-loop shift, its candidate is the assembled potential, and its mixed
potential exists (with first-iteration skip) exactly when it continued. -/
theorem loopGo_trace_build (P : LoopParams) :
    ∀ (fuel step : ℕ) (st : KSState) (vo : Option Vec) (dao : Option Mat)
      (eo : Option Vec) (lv : Option LastVals) (out : LoopOut),
      loopGo P fuel step st vo dao eo lv = some out →
      ∀ rec ∈ out.trace,
        average_local_orbital_energy P.VpotBlocks P.npointsDFT rec.Da rec.Coca
          rec.eigs none = some rec.ebarKS ∧
        pauli_kinetic_energy_density P.VpotBlocks P.npointsDFT rec.Da rec.Coca
          none none = some rec.taupKS ∧
        rec.shift = mainLoopShift P.emax rec.ebarKS ∧
        rec.cand = assembleV P.vxchole rec.ebarKS P.ebarWF P.taupWF rec.taupKS
          rec.shift ∧
        (rec.outcome = Outcome.cont → rec.mixed = some
          (if rec.step = 1 then rec.cand
            else mixPot rec.cand rec.vxcOldIn P.frac_old)) ∧
        (rec.outcome ≠ Outcome.cont → rec.mixed = none) := by
  intro fuel
  induction fuel with
  | zero =>
    intro step st vo dao eo lv out h rec hrec
    simp only [loopGo] at h
    cases lv with
    | none => exact absurd h (by simp)
    | some lv' =>
      simp only [Option.some.injEq] at h
      subst h
      simp at hrec
  | succ fuel ih =>
    intro step st vo dao eo lv out h rec hrec
    rw [loopGo] at h
    cases havg : average_local_orbital_energy P.VpotBlocks P.npointsDFT st.Da
        st.Coca (st.eigvecs_a.take P.Nalpha) none with
    | none => rw [havg] at h; exact absurd h (by simp)
    | some ebarKS =>
      rw [havg] at h
      cases hpau : pauli_kinetic_energy_density P.VpotBlocks P.npointsDFT st.Da
          st.Coca none none with
      | none => rw [hpau] at h; exact absurd h (by simp)
      | some taupKS =>
        rw [hpau] at h
        simp only [] at h
        split at h
        · next h1 =>
          simp only [Option.some.injEq] at h
          subst h
          simp only [List.mem_singleton] at hrec
          subst hrec
          exact ⟨havg, hpau, rfl, rfl, fun hc => Outcome.noConfusion hc,
            fun _ => rfl⟩
        · next h1 =>
          split at h
          · next h2 =>
            simp only [Option.some.injEq] at h
            subst h
            simp only [List.mem_singleton] at hrec
            subst hrec
            exact ⟨havg, hpau, rfl, rfl, fun hc => Outcome.noConfusion hc,
              fun _ => rfl⟩
          · next h2 =>
            rw [Option.map_eq_some'] at h
            rcases h with ⟨out', hrec2, hout⟩
            subst hout
            simp only [List.mem_cons] at hrec
            rcases hrec with hrec | hrec
            · subst hrec
              exact ⟨havg, hpau, rfl, rfl, fun _ => rfl,
                fun hne => absurd rfl hne⟩
            · exact ih (step + 1) _ _ _ _ _ out' hrec2 rec hrec

/-- Length invariant of the loop: every candidate has the fixed length
`candLen P`, and every saved "old" potential baseline does too. -/
theorem loopGo_len_inv (P : LoopParams) :
    ∀ (fuel step : ℕ) (st : KSState) (vo : Option Vec) (dao : Option Mat)
      (eo : Option Vec) (lv : Option LastVals) (out : LoopOut),
      (∀ v, vo = some v → v.length = candLen P) →
      loopGo P fuel step st vo dao eo lv = some out →
      ∀ rec ∈ out.trace,
        rec.cand.length = candLen P ∧
        (∀ v, rec.vxcOldIn = some v → v.length = candLen P) := by
  intro fuel
  induction fuel with
  | zero =>
    intro step st vo dao eo lv out hvo h rec hrec
    simp only [loopGo] at h
    cases lv with
    | none => exact absurd h (by simp)
    | some lv' =>
      simp only [Option.some.injEq] at h
      subst h
      simp at hrec
  | succ fuel ih =>
    intro step st vo dao eo lv out hvo h rec hrec
    rw [loopGo] at h
    cases havg : average_local_orbital_energy P.VpotBlocks P.npointsDFT st.Da
        st.Coca (st.eigvecs_a.take P.Nalpha) none with
    | none => rw [havg] at h; exact absurd h (by simp)
    | some ebarKS =>
      rw [havg] at h
      cases hpau : pauli_kinetic_energy_density P.VpotBlocks P.npointsDFT st.Da
          st.Coca none none with
      | none => rw [hpau] at h; exact absurd h (by simp)
      | some taupKS =>
        rw [hpau] at h
        simp only [] at h
        have hle : ebarKS.length = P.npointsDFT := average_length_eq havg
        have hlt : taupKS.length = P.npointsDFT := pauli_length_eq hpau
        have hcand : ∀ sh : ℚ, (assembleV P.vxchole ebarKS P.ebarWF P.taupWF
            taupKS sh).length = candLen P := by
          intro sh
          rw [assembleV_length, hle, hlt, candLen]
        split at h
        · next h1 =>
          simp only [Option.some.injEq] at h
          subst h
          simp only [List.mem_singleton] at hrec
          subst hrec
          exact ⟨hcand _, hvo⟩
        · next h1 =>
          split at h
          · next h2 =>
            simp only [Option.some.injEq] at h
            subst h
            simp only [List.mem_singleton] at hrec
            subst hrec
            exact ⟨hcand _, hvo⟩
          · next h2 =>
            rw [Option.map_eq_some'] at h
            rcases h with ⟨out', hrec2, hout⟩
            subst hout
            simp only [List.mem_cons] at hrec
            have hmix : ∀ v, (if step = 1 then assembleV P.vxchole ebarKS
                  P.ebarWF P.taupWF taupKS (mainLoopShift P.emax ebarKS)
                else mixPot (assembleV P.vxchole ebarKS P.ebarWF P.taupWF
                  taupKS (mainLoopShift P.emax ebarKS)) vo P.frac_old) = v →
                v.length = candLen P := by
              intro v hveq
              rw [← hveq]
              split
              · exact hcand _
              · cases hvoc : vo with
                | none => simp [mixPot, hcand _]
                | some w =>
                  have hw := hvo w hvoc
                  simp [mixPot, List.length_zipWith, hcand _, hw]
            rcases hrec with hrec | hrec
            · subst hrec
              exact ⟨hcand _, hvo⟩
            · exact ih (step + 1) _ _ _ _ _ out'
                (fun v hveq => hmix v (Option.some.injEq _ _ ▸ hveq)) hrec2 rec hrec

/-- With unreachable tolerances (`v_tol ≤ 0` and `D_tol ≤ 0`) and a
consistent grid, the loop always runs its full budget: every iteration
continues, and exhaustion is not a failure. -/
theorem loopGo_exhaust (P : LoopParams) (hv : P.v_tol ≤ 0) (hD : P.D_tol ≤ 0)
    (hgrid : totalPts P.VpotBlocks = P.npointsDFT) :
    ∀ (fuel step : ℕ) (st : KSState) (vo : Option Vec) (dao : Option Mat)
      (eo : Option Vec) (lv : Option LastVals),
      (1 ≤ fuel ∨ lv.isSome = true) →
      ∃ out, loopGo P fuel step st vo dao eo lv = some out ∧
        out.trace.length = fuel ∧
        (∀ rec ∈ out.trace, rec.outcome = Outcome.cont) ∧
        out.converged = false := by
  intro fuel
  induction fuel with
  | zero =>
    intro step st vo dao eo lv hside
    rcases hside with hside | hside
    · omega
    · cases lv with
      | none => simp at hside
      | some lv' =>
        exact ⟨_, by rw [loopGo], by simp, by simp, by simp⟩
  | succ fuel ih =>
    intro step st vo dao eo lv _
    obtain ⟨ebarKS, havg, _⟩ :=
      (@average_eq_some_iff P.VpotBlocks P.npointsDFT st.Da st.Coca
        (st.eigvecs_a.take P.Nalpha) none).mpr
      (by simpa [resolveGrid] using hgrid)
    obtain ⟨taupKS, hpau, _⟩ :=
      (@pauli_eq_some_iff P.VpotBlocks P.npointsDFT st.Da st.Coca none none).mpr
      (by simpa [resolveGrid] using hgrid)
    have hf1 : normTolLt (sumSq (subOldV (assembleV P.vxchole ebarKS P.ebarWF
        P.taupWF taupKS (mainLoopShift P.emax ebarKS)) vo))
        ((P.nbf : ℚ) ^ 2) P.v_tol = false :=
      normTolLt_eq_false_of_nonpos hv (by positivity)
    have hf2 : normTolLt (sumSqM (subOldM st.Da dao)) ((P.nbf : ℚ) ^ 2)
        P.D_tol = false :=
      normTolLt_eq_false_of_nonpos hD (by positivity)
    obtain ⟨out', hout', hlen', hcont', hconv'⟩ :=
      ih (step + 1)
        (diagonalize_with_potential_mRKS P (P.dft_grid_to_fock
          (if step = 1 then assembleV P.vxchole ebarKS P.ebarWF P.taupWF taupKS (mainLoopShift P.emax ebarKS)
        else mixPot (assembleV P.vxchole ebarKS P.ebarWF P.taupWF taupKS (mainLoopShift P.emax ebarKS)) vo P.frac_old)))
        (some (if step = 1 then assembleV P.vxchole ebarKS P.ebarWF P.taupWF taupKS (mainLoopShift P.emax ebarKS)
        else mixPot (assembleV P.vxchole ebarKS P.ebarWF P.taupWF taupKS (mainLoopShift P.emax ebarKS)) vo P.frac_old))
        (some st.Da) (some (st.eigvecs_a.take P.Nalpha))
        (some ⟨(if step = 1 then assembleV P.vxchole ebarKS P.ebarWF P.taupWF taupKS (mainLoopShift P.emax ebarKS)
        else mixPot (assembleV P.vxchole ebarKS P.ebarWF P.taupWF taupKS (mainLoopShift P.emax ebarKS)) vo P.frac_old),
          ebarKS, taupKS, mainLoopShift P.emax ebarKS⟩) (Or.inr rfl)
    refine ⟨{ out' with trace := (⟨step, st.Da, st.Coca,
        st.eigvecs_a.take P.Nalpha, ebarKS, taupKS, mainLoopShift P.emax ebarKS,
        assembleV P.vxchole ebarKS P.ebarWF P.taupWF taupKS (mainLoopShift P.emax ebarKS), vo, dao, eo, Outcome.cont,
        some (if step = 1 then assembleV P.vxchole ebarKS P.ebarWF P.taupWF taupKS (mainLoopShift P.emax ebarKS)
        else mixPot (assembleV P.vxchole ebarKS P.ebarWF P.taupWF taupKS (mainLoopShift P.emax ebarKS)) vo P.frac_old)⟩ : IterRec) :: out'.trace }, ?_, ?_, ?_, ?_⟩
    · rw [loopGo, havg, hpau]
      simp only [hf1, hf2, Bool.false_and, Bool.false_eq_true, if_false]
      rw [hout']
      rfl
    · simp [hlen']
    · intro rec hrec
      simp only [List.mem_cons] at hrec
      rcases hrec with hrec | hrec
      · rw [hrec]
      · exact hcont' rec hrec
    · simpa using hconv'

/-- The head record of any loop run has iteration index 1 and all three
"old" baselines still at their scalar-`0.0` initialization. -/
theorem runLoop_head_spec (P : LoopParams) (st0 : KSState) (maxiter : ℕ)
    (out : LoopOut) (rec : IterRec) (h : runLoop P st0 maxiter = some out)
    (hh : out.trace.head? = some rec) :
    rec.step = 1 ∧ rec.vxcOldIn = none ∧ rec.DaOldIn = none ∧
      rec.eigOldIn = none := by
  rw [runLoop] at h
  cases maxiter with
  | zero =>
    simp only [loopGo] at h
    exact absurd h (by simp)
  | succ n =>
    rw [loopGo] at h
    cases havg : average_local_orbital_energy P.VpotBlocks P.npointsDFT st0.Da
        st0.Coca (st0.eigvecs_a.take P.Nalpha) none with
    | none => rw [havg] at h; exact absurd h (by simp)
    | some ebarKS =>
      rw [havg] at h
      cases hpau : pauli_kinetic_energy_density P.VpotBlocks P.npointsDFT st0.Da
          st0.Coca none none with
      | none => rw [hpau] at h; exact absurd h (by simp)
      | some taupKS =>
        rw [hpau] at h
        simp only [] at h
        split at h
        · next h1 =>
          simp only [Option.some.injEq] at h
          subst h
          simp only [List.head?] at hh
          simp only [Option.some.injEq] at hh
          subst hh
          exact ⟨rfl, rfl, rfl, rfl⟩
        · next h1 =>
          split at h
          · next h2 =>
            simp only [Option.some.injEq] at h
            subst h
            simp only [List.head?] at hh
            simp only [Option.some.injEq] at hh
            subst hh
            exact ⟨rfl, rfl, rfl, rfl⟩
          · next h2 =>
            rw [Option.map_eq_some'] at h
            rcases h with ⟨out', _, hout⟩
            subst hout
            simp only [List.head?] at hh
            simp only [Option.some.injEq] at hh
            subst hh
            exact ⟨rfl, rfl, rfl, rfl⟩

theorem rsum_congr {n : ℕ} {f g : ℕ → ℚ} (h : ∀ i < n, f i = g i) :
    rsum n f = rsum n g := by
  induction n with
  | zero => rfl
  | succ n ih =>
    have h1 : ∀ i < n, f i = g i := fun i hi => h i (Nat.lt_succ_of_lt hi)
    have h2 := ih h1
    simp only [rsum, List.range_succ, List.map_append, List.sum_append,
      List.map_cons, List.map_nil, List.sum_cons, List.sum_nil] at h2 ⊢
    rw [h2, h n (Nat.lt_succ_self n)]

theorem mixPot_zero {cand : Vec} {old : Option Vec}
    (hlen : ∀ v, old = some v → cand.length ≤ v.length) :
    mixPot cand old 0 = cand := by
  cases old with
  | none =>
    simp only [mixPot]
    have : ∀ a : ℚ, a * (1 - 0) + 0 * 0 = a := by intro a; ring
    simp [this]
  | some v =>
    have h := hlen v rfl
    simp only [mixPot]
    clear hlen
    induction cand generalizing v with
    | nil => simp
    | cons a as ih =>
      cases v with
      | nil => simp at h
      | cons b bs =>
        simp only [List.length_cons, Nat.add_le_add_iff_right] at h
        simp only [List.zipWith_cons_cons, List.cons.injEq]
        exact ⟨by ring, ih bs h⟩

/-! ### Claims -/

/-- C1: For every iteration of the mRKS loop, if the potential error
(`‖vxc − vxc_old‖ / nbf²`) is strictly below `v_tol` the loop terminates
immediately (the record is the last of the trace) regardless of the density
and eigenvalue error values; otherwise, if the density error is strictly
below `D_tol` AND the eigenvalue error is strictly below `eig_tol`, the loop
also terminates; otherwise it continues — the potential check always
decides first. -/
theorem mRKS_convergence_priority (P : LoopParams) (st0 : KSState)
    (maxiter : ℕ) (out : LoopOut) (h : runLoop P st0 maxiter = some out) :
    ∀ rec ∈ out.trace,
      (rec.outcome = Outcome.byPotential ↔ potCond P rec) ∧
      (rec.outcome = Outcome.byState ↔ (¬ potCond P rec ∧ stateCond P rec)) ∧
      (rec.outcome = Outcome.cont ↔ (¬ potCond P rec ∧ ¬ stateCond P rec)) ∧
      (rec.outcome ≠ Outcome.cont → out.trace.getLast? = some rec) :=
  loopGo_trace_spec P maxiter 1 st0 none none none none out h

/-- Witness for C1 at the one-block fixture: the single-iteration run
converges by potential and its record satisfies the priority ordering. -/
theorem mRKS_convergence_priority_witness :
    runLoop wP wSt 1 = some wOut ∧ wRec ∈ wOut.trace ∧
      ((wRec.outcome = Outcome.byPotential ↔ potCond wP wRec) ∧
       (wRec.outcome = Outcome.byState ↔ (¬ potCond wP wRec ∧ stateCond wP wRec)) ∧
       (wRec.outcome = Outcome.cont ↔ (¬ potCond wP wRec ∧ ¬ stateCond wP wRec)) ∧
       (wRec.outcome ≠ Outcome.cont → wOut.trace.getLast? = some wRec)) := by
  have h : runLoop wP wSt 1 = some wOut := by
    norm_num [runLoop, loopGo, wP, wSt, wB, average_local_orbital_energy,
      pauli_kinetic_energy_density, resolveGrid, avgPoint, pauliPoint,
      Block.npts, rsum, rhoAt, submat, rowsAt, midx, idx, List.range_succ,
      mainLoopShift, npMax, assembleV, vadd, vsub, subOldV, normTolLt, sumSq,
      sumSqM, subOldM, wOut, wRec]
  have hm : wRec ∈ wOut.trace := by simp [wOut]
  exact ⟨h, hm, mRKS_convergence_priority wP wSt 1 wOut h wRec hm⟩

/-- C2: For every iteration of the loop run with the parameters `mRKS`
builds (`loopParamsOf`, whose `emax` is `np.max` of the internal-grid
reference orbital-energy average computed once before the loop), the
assembled candidate equals
`vxchole + ebarKS − ebarWF + taup_rho_WF − taup_rho_KS + shift` pointwise,
with `shift = max(ebarWF) − max(ebarKS)`. -/
theorem mRKS_candidate_assembly (s : Solver) (eng : Engine)
    (ebarWF taupWF vxchole : Vec) (v_tol D_tol eig_tol frac_old : ℚ)
    (st0 : KSState) (maxiter : ℕ) (out : LoopOut)
    (h : runLoop (loopParamsOf s eng ebarWF taupWF vxchole v_tol D_tol
      eig_tol frac_old) st0 maxiter = some out)
    (hhole : vxchole.length = s.npoints_DFT)
    (hwf : ebarWF.length = s.npoints_DFT)
    (htwf : taupWF.length = s.npoints_DFT) :
    ∀ rec ∈ out.trace,
      rec.shift = npMax ebarWF - npMax rec.ebarKS ∧
      rec.cand.length = s.npoints_DFT ∧
      ∀ i < s.npoints_DFT,
        rec.cand.getD i 0 = vxchole.getD i 0 + rec.ebarKS.getD i 0
          - ebarWF.getD i 0 + taupWF.getD i 0 - rec.taupKS.getD i 0
          + rec.shift := by
  intro rec hrec
  obtain ⟨havg, hpau, hshift, hcand, _, _⟩ :=
    loopGo_trace_build (loopParamsOf s eng ebarWF taupWF vxchole v_tol D_tol
      eig_tol frac_old) maxiter 1 st0 none none none none out h rec hrec
  simp only [loopParamsOf, mainLoopShift] at havg hpau hshift hcand
  have heb : rec.ebarKS.length = s.npoints_DFT := average_length_eq havg
  have htp : rec.taupKS.length = s.npoints_DFT := pauli_length_eq hpau
  refine ⟨hshift, ?_, ?_⟩
  · rw [hcand, assembleV_length]
    rw [hhole, hwf, htwf, heb, htp]
    simp
  · intro i hi
    rw [hcand]
    exact @assembleV_getD vxchole rec.ebarKS ebarWF taupWF rec.taupKS
      rec.shift i (by omega) (by omega) (by omega) (by omega) (by omega)

/-- Witness for C2 at the one-block fixture. -/
theorem mRKS_candidate_assembly_witness :
    runLoop (loopParamsOf wSolver wEngine [0] [0] [0] 1 1 1 0) wSt 1 =
      some wOut ∧
    ([0] : Vec).length = wSolver.npoints_DFT ∧ wRec ∈ wOut.trace ∧
      (wRec.shift = npMax [0] - npMax wRec.ebarKS ∧
       wRec.cand.length = wSolver.npoints_DFT ∧
       ∀ i < wSolver.npoints_DFT,
         wRec.cand.getD i 0 = ([0] : Vec).getD i 0 + wRec.ebarKS.getD i 0
           - ([0] : Vec).getD i 0 + ([0] : Vec).getD i 0 - wRec.taupKS.getD i 0
           + wRec.shift) := by
  have h : runLoop (loopParamsOf wSolver wEngine [0] [0] [0] 1 1 1 0) wSt 1 =
      some wOut := by
    norm_num [runLoop, loopGo, loopParamsOf, wSolver, wEngine, wSt, wB,
      average_local_orbital_energy, pauli_kinetic_energy_density, resolveGrid,
      avgPoint, pauliPoint, Block.npts, rsum, rhoAt, submat, rowsAt, midx, idx,
      List.range_succ, mainLoopShift, npMax, assembleV, vadd, vsub, subOldV,
      normTolLt, sumSq, sumSqM, subOldM, wOut, wRec]
  have hlen : ([0] : Vec).length = wSolver.npoints_DFT := by
    simp [wSolver]
  have hm : wRec ∈ wOut.trace := by simp [wOut]
  exact ⟨h, hlen, hm, mRKS_candidate_assembly wSolver wEngine [0] [0] [0]
    1 1 1 0 wSt 1 wOut h hlen hlen hlen wRec hm⟩

/-- C3 counterexample: at `ebarWF = [1]`, `ebarKS = [0]` the output-grid
shift is `max(reference) − max(current) = 1`, the same operand order as the
main loop's shift — not the reversed `max(current) − max(reference) = −1`
the claim asserts. -/
theorem outputGridShift_not_reversed :
    outputGridShift [1] [0] = mainLoopShift (npMax [1]) [0] ∧
      outputGridShift [1] [0] ≠ npMax [0] - npMax [1] := by
  constructor
  · rfl
  · norm_num [outputGridShift, npMax]

/-- C3 amended: the output-grid re-evaluation path computes its shift with
the same `max(reference) − max(current)` operand order as the main loop
(`emax − max(ebarKS)` with `emax = max(ebarWF)`); the two code paths use
consistent sign conventions, the only difference being that the output-grid
path recomputes both averages on the output grid. -/
theorem outputGridShift_consistent (ebarWF ebarKS : Vec) :
    outputGridShift ebarWF ebarKS = npMax ebarWF - npMax ebarKS ∧
      outputGridShift ebarWF ebarKS = mainLoopShift (npMax ebarWF) ebarKS :=
  ⟨rfl, rfl⟩

/-- C4: In the hole-potential quadrature, every outer/inner point pair whose
squared Euclidean distance is within `atol` of zero has its distance set to
infinity, so its term in the accumulated sum is exactly zero; every other
pair contributes its point-pair tensor value times the reciprocal distance
(`invsqrt` of the squared distance) times the inner block's quadrature
weight. -/
theorem vxc_hole_guard (wname : String) (D2 DaWfn : Mat) (Tau : Ten4)
    (invsqrt : ℚ → ℚ) (atol : ℚ) (lb : Block) (lphi : Mat) (rho1inv : Vec)
    (rb : Block) (p : ℕ) (hp : p < lb.x.length) :
    (innerContrib wname D2 DaWfn Tau invsqrt atol lb lphi rho1inv rb).getD p 0 =
      rsum rb.w.length (fun q =>
        if |pairR2 lb rb p q| ≤ atol then 0
        else nxcPair wname D2 DaWfn Tau lb.lpos rb.lpos lphi
          ((rb.phi.take rb.w.length).map (fun r => r.take rb.lpos.length))
          rho1inv p q * invsqrt (pairR2 lb rb p q) * idx rb.w q) := by
  simp only [innerContrib]
  rw [getD_map_range hp]
  by_cases hany : ((List.range lb.x.length).any (fun p' =>
      (List.range rb.w.length).any (fun q =>
        decide (|pairR2 lb rb p' q| ≤ atol)))) = true
  · refine rsum_congr ?_
    intro q hq
    rw [if_pos hany]
    by_cases hcl : |pairR2 lb rb p q| ≤ atol
    · rw [if_pos hcl, if_pos hcl]
      ring
    · rw [if_neg hcl, if_neg hcl]
  · refine rsum_congr ?_
    intro q hq
    rw [if_neg hany]
    have hnone : ∀ p' < lb.x.length, ∀ q' < rb.w.length,
        ¬ |pairR2 lb rb p' q'| ≤ atol := by
      intro p' hp' q' hq' hcl
      exact hany (by
        simp only [List.any_eq_true, List.mem_range, decide_eq_true_eq]
        exact ⟨p', hp', q', hq', hcl⟩)
    rw [if_neg (hnone p hp q hq)]

/-- Witness for C4: the self-coincident pair of the single-point fixture
block is guarded. -/
theorem vxc_hole_guard_witness :
    0 < wB.x.length ∧
      (innerContrib ("RHF") [[1]] [[1]] [] (fun d => 1 / d) (1 / 10000) wB
          [[1]] [1] wB).getD 0 0 =
        rsum wB.w.length (fun q =>
          if |pairR2 wB wB 0 q| ≤ 1 / 10000 then 0
          else nxcPair ("RHF") [[1]] [[1]] [] wB.lpos wB.lpos [[1]]
            ((wB.phi.take wB.w.length).map (fun r => r.take wB.lpos.length))
            [1] 0 q * (fun d => 1 / d) (pairR2 wB wB 0 q) * idx wB.w q) :=
  ⟨by norm_num [wB], vxc_hole_guard ("RHF") [[1]] [[1]] [] (fun d => 1 / d)
    (1 / 10000) wB [[1]] [1] wB 0 (by norm_num [wB])⟩

/-- C5: For every quadrature pass (hole potential, average orbital energy,
Pauli kinetic density, modified Pauli kinetic density), the output is
produced (and has exactly the grid's point count — no silent truncation)
precisely when the sum of per-block point counts equals the total point
count of the output array; a mismatch makes every operation fail its
point-accounting assertion. -/
theorem quadrature_point_accounting (B : List Block) (nDFT : ℕ)
    (gi : Option GridInfo) (D C : Mat) (e : Vec) (occ? : Option Vec)
    (s : Solver) (invsqrt : ℚ → ℚ) (atol : ℚ)
    (hname : s.wfn.name = "CIWavefunction" ∨ s.wfn.name = "RHF") :
    ((totalPts (resolveGrid B nDFT gi).1 = (resolveGrid B nDFT gi).2 →
        ∃ v, average_local_orbital_energy B nDFT D C e gi = some v ∧
          v.length = (resolveGrid B nDFT gi).2) ∧
      (totalPts (resolveGrid B nDFT gi).1 ≠ (resolveGrid B nDFT gi).2 →
        average_local_orbital_energy B nDFT D C e gi = none)) ∧
    ((totalPts (resolveGrid B nDFT gi).1 = (resolveGrid B nDFT gi).2 →
        ∃ v, pauli_kinetic_energy_density B nDFT D C occ? gi = some v ∧
          v.length = (resolveGrid B nDFT gi).2) ∧
      (totalPts (resolveGrid B nDFT gi).1 ≠ (resolveGrid B nDFT gi).2 →
        pauli_kinetic_energy_density B nDFT D C occ? gi = none)) ∧
    ((totalPts (resolveGrid B nDFT gi).1 = (resolveGrid B nDFT gi).2 →
        ∃ v, modified_pauli_kinetic_energy_density B nDFT D C occ? gi = some v ∧
          v.length = (resolveGrid B nDFT gi).2) ∧
      (totalPts (resolveGrid B nDFT gi).1 ≠ (resolveGrid B nDFT gi).2 →
        modified_pauli_kinetic_energy_density B nDFT D C occ? gi = none)) ∧
    ((totalPts (resolveGrid s.Vpot s.npoints_DFT gi).1 =
          (resolveGrid s.Vpot s.npoints_DFT gi).2 →
        ∃ v, vxcHoleQuadCompute s invsqrt atol gi = some v ∧
          v.length = (resolveGrid s.Vpot s.npoints_DFT gi).2) ∧
      (totalPts (resolveGrid s.Vpot s.npoints_DFT gi).1 ≠
          (resolveGrid s.Vpot s.npoints_DFT gi).2 →
        vxcHoleQuadCompute s invsqrt atol gi = none)) :=
  ⟨⟨fun h => average_eq_some_iff.mpr h, fun h => average_eq_none_of h⟩,
   ⟨fun h => pauli_eq_some_iff.mpr h, fun h => pauli_eq_none_of h⟩,
   ⟨fun h => modified_eq_some_iff.mpr h, fun h => modified_eq_none_of h⟩,
   ⟨fun h => (hole_eq_some_iff hname).mpr h, fun h => hole_eq_none_of hname h⟩⟩

/-- Witness for C5 on the single-block fixture grid (where the partition
precondition holds, so all four passes succeed with full length). -/
theorem quadrature_point_accounting_witness :
    (wSolver.wfn.name = "CIWavefunction" ∨ wSolver.wfn.name = "RHF") ∧
    (totalPts (resolveGrid [wB] 1 none).1 = (resolveGrid [wB] 1 none).2 →
      ∃ v, average_local_orbital_energy [wB] 1 [[1]] [[1]] [0] none = some v ∧
        v.length = (resolveGrid [wB] 1 none).2) ∧
    (totalPts (resolveGrid wSolver.Vpot wSolver.npoints_DFT none).1 =
        (resolveGrid wSolver.Vpot wSolver.npoints_DFT none).2 →
      ∃ v, vxcHoleQuadCompute wSolver (fun d => 1 / d) (1 / 10000) none = some v ∧
        v.length = (resolveGrid wSolver.Vpot wSolver.npoints_DFT none).2) := by
  have hname : wSolver.wfn.name = "CIWavefunction" ∨ wSolver.wfn.name = "RHF" := by
    right; rfl
  have hall := quadrature_point_accounting [wB] 1 none [[1]] [[1]] [0] none
    wSolver (fun d => 1 / d) (1 / 10000) hname
  exact ⟨hname, hall.1.1, hall.2.2.2.1⟩

/-- C6: For every iteration and every `frac_old ∈ [0, 1)`, the mixed
potential of a continuing iteration equals
`new * (1 − frac_old) + previous * frac_old`, except on the first iteration
where mixing is skipped and the potential equals the unmixed assembled
candidate; with `frac_old = 0` the mixing returns the new field unchanged on
every iteration (breaking iterations never mix). -/
theorem mRKS_mixing_policy (P : LoopParams) (st0 : KSState) (maxiter : ℕ)
    (out : LoopOut) (h : runLoop P st0 maxiter = some out)
    (hf0 : 0 ≤ P.frac_old) (hf1 : P.frac_old < 1) :
    ∀ rec ∈ out.trace,
      (rec.outcome = Outcome.cont → rec.mixed = some
        (if rec.step = 1 then rec.cand
          else mixPot rec.cand rec.vxcOldIn P.frac_old)) ∧
      (rec.outcome ≠ Outcome.cont → rec.mixed = none) ∧
      (P.frac_old = 0 → rec.outcome = Outcome.cont →
        rec.mixed = some rec.cand) := by
  intro rec hrec
  obtain ⟨_, _, _, _, hmix, hnomix⟩ :=
    loopGo_trace_build P maxiter 1 st0 none none none none out h rec hrec
  obtain ⟨hclen, hvlen⟩ :=
    loopGo_len_inv P maxiter 1 st0 none none none none out (by simp) h rec hrec
  refine ⟨hmix, hnomix, ?_⟩
  intro hf hc
  rw [hmix hc, hf]
  congr 1
  split
  · rfl
  · exact mixPot_zero (fun v hv => le_of_eq (by rw [hclen, hvlen v hv]))

/-- Witness for C6 on a two-iteration never-converging run with
`frac_old = 1/2`: its second iteration record obeys the mixing equation. -/
theorem mRKS_mixing_policy_witness :
    runLoop wPn wSt 2 = some wOutN ∧ (0 : ℚ) ≤ wPn.frac_old ∧
      wPn.frac_old < 1 ∧ wRecN2 ∈ wOutN.trace ∧
      ((wRecN2.outcome = Outcome.cont → wRecN2.mixed = some
        (if wRecN2.step = 1 then wRecN2.cand
          else mixPot wRecN2.cand wRecN2.vxcOldIn wPn.frac_old)) ∧
       (wRecN2.outcome ≠ Outcome.cont → wRecN2.mixed = none) ∧
       (wPn.frac_old = 0 → wRecN2.outcome = Outcome.cont →
        wRecN2.mixed = some wRecN2.cand)) := by
  have h : runLoop wPn wSt 2 = some wOutN := by
    norm_num [runLoop, loopGo, wPn, wP, wSt, wB, average_local_orbital_energy,
      pauli_kinetic_energy_density, resolveGrid, avgPoint, pauliPoint,
      Block.npts, rsum, rhoAt, submat, rowsAt, midx, idx, List.range_succ,
      mainLoopShift, npMax, assembleV, vadd, vsub, subOldV, normTolLt, sumSq,
      sumSqM, subOldM, mixPot, diagonalize_with_potential_mRKS, madd,
      wOutN, wOutDefault]
  have hf0 : (0 : ℚ) ≤ wPn.frac_old := by norm_num [wPn, wP]
  have hf1 : wPn.frac_old < 1 := by norm_num [wPn, wP]
  have hm : wRecN2 ∈ wOutN.trace := by
    norm_num [wRecN2, wOutN, wOutDefault, runLoop, loopGo, wPn, wP, wSt, wB,
      average_local_orbital_energy, pauli_kinetic_energy_density, resolveGrid,
      avgPoint, pauliPoint, Block.npts, rsum, rhoAt, submat, rowsAt, midx, idx,
      List.range_succ, mainLoopShift, npMax, assembleV, vadd, vsub, subOldV,
      normTolLt, sumSq, sumSqM, subOldM, mixPot,
      diagonalize_with_potential_mRKS, madd, wRecDefault]
  exact ⟨h, hf0, hf1, hm, mRKS_mixing_policy wPn wSt 2 wOutN h hf0 hf1 wRecN2 hm⟩

/-- C7: If neither convergence condition is ever satisfied (tolerances
unreachable) and the grid is consistent, the loop performs exactly `maxiter`
iterations, issues exactly `maxiter` re-diagonalization requests, and
returns the last computed fields normally (no error): exhaustion is
non-convergence, not a failure. -/
theorem mRKS_maxiter_exhaustion (P : LoopParams) (st0 : KSState)
    (maxiter : ℕ) (hmax : 1 ≤ maxiter) (hv : P.v_tol ≤ 0) (hD : P.D_tol ≤ 0)
    (hgrid : totalPts P.VpotBlocks = P.npointsDFT) :
    ∃ out, runLoop P st0 maxiter = some out ∧
      out.trace.length = maxiter ∧ diagRequests out = maxiter ∧
      (∀ rec ∈ out.trace, rec.outcome = Outcome.cont) ∧
      out.converged = false := by
  obtain ⟨out, hout, hlen, hcont, hconv⟩ :=
    loopGo_exhaust P hv hD hgrid maxiter 1 st0 none none none none
      (Or.inl hmax)
  refine ⟨out, hout, hlen, ?_, hcont, hconv⟩
  have hfil : out.trace.filter (fun r => decide (r.outcome = Outcome.cont)) =
      out.trace :=
    List.filter_eq_self.mpr (fun a ha => by simp [hcont a ha])
  rw [diagRequests, hfil, hlen]

/-- Witness for C7: the negative-tolerance fixture runs exactly its
two-iteration budget. -/
theorem mRKS_maxiter_exhaustion_witness :
    1 ≤ 2 ∧ wPn.v_tol ≤ 0 ∧ wPn.D_tol ≤ 0 ∧
      totalPts wPn.VpotBlocks = wPn.npointsDFT ∧
      ∃ out, runLoop wPn wSt 2 = some out ∧
        out.trace.length = 2 ∧ diagRequests out = 2 ∧
        (∀ rec ∈ out.trace, rec.outcome = Outcome.cont) ∧
        out.converged = false := by
  have hv : wPn.v_tol ≤ 0 := by norm_num [wPn, wP]
  have hD : wPn.D_tol ≤ 0 := by norm_num [wPn, wP]
  have hg : totalPts wPn.VpotBlocks = wPn.npointsDFT := by
    norm_num [wPn, wP, totalPts, wB, Block.npts]
  exact ⟨by norm_num, hv, hD, hg,
    mRKS_maxiter_exhaustion wPn wSt 2 (by norm_num) hv hD hg⟩

/-- C8: An unsupported reference-wavefunction kind, an unrestricted-spin
input, or a first guide-potential component other than the Hartree
potential makes `mRKS` raise a configuration error before any grid
construction, quadrature or iteration, leaving the solver state
unmodified. -/
theorem mRKS_config_errors (s : Solver) (eng : Engine) (invsqrt : ℚ → ℚ)
    (maxiter : ℕ) (vxc_grid : Option GridInfo)
    (v_tol D_tol eig_tol frac_old : ℚ) (init : InitGuess)
    (hbad : ¬ (s.wfn.name = "CIWavefunction" ∨ s.wfn.name = "RHF") ∨
      s.ref ≠ 1 ∨ s.guide_potential_components.head? ≠ some ("hartree")) :
    (mRKS s eng invsqrt maxiter vxc_grid v_tol D_tol eig_tol frac_old
      init).1 = s ∧
    ∃ msg, (mRKS s eng invsqrt maxiter vxc_grid v_tol D_tol eig_tol frac_old
      init).2 = Except.error msg := by
  by_cases h1 : s.wfn.name = "CIWavefunction" ∨ s.wfn.name = "RHF"
  · by_cases h2 : s.ref = 1
    · have h3 : s.guide_potential_components.head? ≠ some ("hartree") := by
        rcases hbad with hb | hb | hb
        · exact absurd h1 hb
        · exact absurd h2 hb
        · exact hb
      cases hg : s.guide_potential_components with
      | nil =>
        simp only [mRKS, hg]
        rw [if_neg (not_not_intro h1), if_neg (not_not_intro h2)]
        exact ⟨rfl, _, rfl⟩
      | cons g0 gs =>
        have hg0 : g0 ≠ "hartree" := by
          rw [hg] at h3
          simpa using h3
        simp only [mRKS, hg]
        rw [if_neg (not_not_intro h1), if_neg (not_not_intro h2)]
        rw [if_pos hg0]
        exact ⟨rfl, _, rfl⟩
    · simp only [mRKS]
      rw [if_neg (not_not_intro h1), if_pos h2]
      exact ⟨rfl, _, rfl⟩
  · simp only [mRKS]
    rw [if_pos h1]
    exact ⟨rfl, _, rfl⟩

/-- Witness for C8: the unrestricted (`ref = 2`) solver is rejected with its
state untouched. -/
theorem mRKS_config_errors_witness :
    (¬ (wBadSolver.wfn.name = "CIWavefunction" ∨
        wBadSolver.wfn.name = "RHF") ∨ wBadSolver.ref ≠ 1 ∨
      wBadSolver.guide_potential_components.head? ≠ some ("hartree")) ∧
    (mRKS wBadSolver wEngine (fun d => 1 / d) 5 none 1 1 1 0
      InitGuess.contin).1 = wBadSolver ∧
    ∃ msg, (mRKS wBadSolver wEngine (fun d => 1 / d) 5 none 1 1 1 0
      InitGuess.contin).2 = Except.error msg := by
  have hbad : ¬ (wBadSolver.wfn.name = "CIWavefunction" ∨
      wBadSolver.wfn.name = "RHF") ∨ wBadSolver.ref ≠ 1 ∨
      wBadSolver.guide_potential_components.head? ≠ some ("hartree") := by
    right; left
    norm_num [wBadSolver, wSolver]
  have hres := mRKS_config_errors wBadSolver wEngine (fun d => 1 / d) 5 none
    1 1 1 0 InitGuess.contin hbad
  exact ⟨hbad, hres.1, hres.2⟩

/-- C9: In the hole-potential quadrature, the inner block loop always
iterates over the solver's internal DFT grid; a supplied alternate grid
changes only the outer evaluation points, so the double integral is always
integrated against the internal grid regardless of the `grid_info`
argument. -/
theorem vxc_hole_inner_grid (s : Solver) (invsqrt : ℚ → ℚ) (atol : ℚ)
    (g : GridInfo) :
    vxcHoleQuadCompute s invsqrt atol (some g) =
      vxcHoleTwoGrid s invsqrt atol g.blocks g.npoints s.Vpot ∧
    vxcHoleQuadCompute s invsqrt atol none =
      vxcHoleTwoGrid s invsqrt atol s.Vpot s.npoints_DFT s.Vpot :=
  ⟨rfl, rfl⟩

/-- C10: On the first iteration the three convergence baselines are the
scalar zero, so the iteration-1 differences are the raw potential, density
matrix and occupied eigenvalues themselves; consequently the loop can
terminate on iteration 1 before any re-diagonalization has been
requested. -/
theorem mRKS_first_iteration_baselines :
    (∀ (P : LoopParams) (st0 : KSState) (maxiter : ℕ) (out : LoopOut)
      (rec : IterRec), runLoop P st0 maxiter = some out →
      out.trace.head? = some rec →
      rec.step = 1 ∧ rec.vxcOldIn = none ∧ rec.DaOldIn = none ∧
        rec.eigOldIn = none ∧ subOldV rec.cand rec.vxcOldIn = rec.cand ∧
        subOldM rec.Da rec.DaOldIn = rec.Da ∧
        subOldV rec.eigs rec.eigOldIn = rec.eigs) ∧
    (∃ (P : LoopParams) (st0 : KSState) (out : LoopOut),
      runLoop P st0 5 = some out ∧ out.converged = true ∧
        out.trace.length = 1 ∧ diagRequests out = 0) := by
  constructor
  · intro P st0 maxiter out rec h hh
    obtain ⟨h1, h2, h3, h4⟩ := runLoop_head_spec P st0 maxiter out rec h hh
    exact ⟨h1, h2, h3, h4, by rw [h2]; rfl, by rw [h3]; rfl, by rw [h4]; rfl⟩
  · refine ⟨wP, wSt, wOut, ?_, rfl, rfl, ?_⟩
    · norm_num [runLoop, loopGo, wP, wSt, wB, average_local_orbital_energy,
        pauli_kinetic_energy_density, resolveGrid, avgPoint, pauliPoint,
        Block.npts, rsum, rhoAt, submat, rowsAt, midx, idx, List.range_succ,
        mainLoopShift, npMax, assembleV, vadd, vsub, subOldV, normTolLt,
        sumSq, sumSqM, subOldM, wOut, wRec]
    · simp [diagRequests, wOut, wRec, List.filter]

/-- Witness for C10 (the universal part has hypotheses): the head record of
the fixture run has all baselines at their scalar-zero initialization. -/
theorem mRKS_first_iteration_baselines_witness :
    runLoop wP wSt 1 = some wOut ∧ wOut.trace.head? = some wRec ∧
      (wRec.step = 1 ∧ wRec.vxcOldIn = none ∧ wRec.DaOldIn = none ∧
        wRec.eigOldIn = none ∧ subOldV wRec.cand wRec.vxcOldIn = wRec.cand ∧
        subOldM wRec.Da wRec.DaOldIn = wRec.Da ∧
        subOldV wRec.eigs wRec.eigOldIn = wRec.eigs) := by
  have h : runLoop wP wSt 1 = some wOut := by
    norm_num [runLoop, loopGo, wP, wSt, wB, average_local_orbital_energy,
      pauli_kinetic_energy_density, resolveGrid, avgPoint, pauliPoint,
      Block.npts, rsum, rhoAt, submat, rowsAt, midx, idx, List.range_succ,
      mainLoopShift, npMax, assembleV, vadd, vsub, subOldV, normTolLt, sumSq,
      sumSqM, subOldM, wOut, wRec]
  have hh : wOut.trace.head? = some wRec := by simp [wOut]
  exact ⟨h, hh, mRKS_first_iteration_baselines.1 wP wSt 1 wOut wRec h hh⟩

end N2V
